import Mathlib

/-!
The `/base64` request pipeline of ocrservice.

A shallow embedding of `src/main.go` (handler `base64`, `errorResponse`,
`finishHandle`) together with models of the Go library calls the handler makes:
`net/http` (`Header.Get/Set/Del`, `WriteHeader`, `Write`, `http.Error`),
`strings.Trim`, `strings.Split`, and `encoding/base64` (`StdEncoding`).

Go strings are modelled by Lean `String`s (sequences of code points).  Every
string the handler inspects comes out of the JSON decoder or the OCR engine and
is valid UTF-8; the only byte offsets that are observable (the base64 decoder's
`CorruptInputError`) are reached after ASCII characters only, so offsets in
characters and in bytes agree there.

The collaborators that are not part of the repository (JSON parsing, the OCR
engine, `cast.ToString`, `json.Marshal`) are fields of an environment `Env`,
which also says at which library call a runtime panic is raised.
-/

namespace OcrService

/-! Section: net/http -/

/-- Go `http.Header`: canonical key to list of values. -/
abbrev Header := List (String × List String)

/-- Go `Header.Get`: the first value stored under the key, `""` when there is none. -/
def Header.Get (h : Header) (key : String) : String :=
  match h.lookup key with
  | some (v :: _) => v
  | _ => ""

/-- Go `Header.Del`: drop every entry of the key. -/
def Header.Del (h : Header) (key : String) : Header :=
  h.filter (fun e => e.1 != key)

/-- Go `Header.Set`: the key now holds exactly the one value. -/
def Header.Set (h : Header) (key value : String) : Header :=
  (key, [value]) :: Header.Del h key

/-- What the client of an `http.ResponseWriter` can observe: the live header map,
the status line once it has been sent (with the headers frozen at that moment),
the chunks written to the body in order, and how many later `WriteHeader` calls
were dropped as superfluous. -/
structure ResponseWriter where
  header : Header
  status : Option Nat
  sentHeader : Header
  body : List String
  superfluous : Nat
deriving DecidableEq, Repr

/-- The writer the server hands to a handler: nothing set, nothing sent. -/
def ResponseWriter.fresh : ResponseWriter :=
  { header := [], status := none, sentHeader := [], body := [], superfluous := 0 }

/-- Go `ResponseWriter.WriteHeader`: the first call sends the status line with the
current headers; any later call is ignored. -/
def ResponseWriter.WriteHeader (w : ResponseWriter) (code : Nat) : ResponseWriter :=
  match w.status with
  | some _ => { w with superfluous := w.superfluous + 1 }
  | none => { w with status := some code, sentHeader := w.header }

/-- Go `ResponseWriter.Write`: sends `200` first when no status was sent yet, then
appends the data to the body. -/
def ResponseWriter.Write (w : ResponseWriter) (data : String) : ResponseWriter :=
  let w1 := match w.status with
    | some _ => w
    | none => { w with status := some 200, sentHeader := w.header }
  { w1 with body := w1.body ++ [data] }

/-- Go `http.Error(w, error, code)`:
`h := w.Header(); h.Del("Content-Length");
h.Set("Content-Type", "text/plain; charset=utf-8");
h.Set("X-Content-Type-Options", "nosniff"); w.WriteHeader(code);
fmt.Fprintln(w, error)`.
The content type a handler set before is overwritten, and the message is followed
by a newline. -/
def httpError (w : ResponseWriter) (error : String) (code : Nat) : ResponseWriter :=
  let h := Header.Del w.header "Content-Length"
  let h := Header.Set h "Content-Type" "text/plain; charset=utf-8"
  let h := Header.Set h "X-Content-Type-Options" "nosniff"
  let w := { w with header := h }
  let w := w.WriteHeader code
  w.Write (error ++ "\n")

/-- An incoming request as far as the handler reads it: headers and raw body. -/
structure Request where
  header : Header
  body : String
deriving DecidableEq, Repr

/-! Section: the collaborators -/

/-- The anonymous struct the JSON body is decoded into (`main.go` lines 74-80);
`PSM` is `gosseract.PageSegMode`, an `int`. -/
structure Body where
  Base64 : String
  Trim : String
  Languages : String
  Whitelist : String
  PSM : Int
deriving DecidableEq, Repr

/-- A byte. -/
abbrev Byte := Fin 256

/-- Calls the handler makes on the OCR engine, as a test double would record them.
`text` carries the value of `client.Languages` at the moment recognition is
requested. -/
inductive Event where
  | newClient
  | setPageSegMode (mode : Int)
  | setImageFromBytes (b : List Byte)
  | setWhitelist (w : String)
  | text (languages : List String)
  | close
deriving DecidableEq, Repr

/-- The library calls of the handler inside which a runtime panic can be raised. -/
inductive Step where
  | jsonDecode
  | b64Decode
  | newClient
  | setPageSegMode
  | setImageFromBytes
  | setWhitelist
  | text
  | close
deriving DecidableEq, Repr

/-- The errors `Decoder.Decode` returns for a request body.
* `notJSON msg`: no JSON value could be read from the body (a `*json.SyntaxError`,
  `io.EOF` for an empty body, `io.ErrUnexpectedEOF`, or an error of the reader);
* `unmarshalType msg filled`: the body is JSON text, but a value in it does not fit
  the struct or the struct field it is decoded into (a `*json.UnmarshalTypeError`,
  for instance a number for `trim` or a string for `psm`); such a field is skipped
  and `filled` is the struct as the decoder leaves it.
In both cases `msg` is what `err.Error()` gives. -/
inductive DecodeError where
  | notJSON (msg : String)
  | unmarshalType (msg : String) (filled : Body)
deriving DecidableEq, Repr

/-- Go `err.Error()` for the error of `Decode`. -/
def DecodeError.Error : DecodeError → String
  | .notJSON msg => msg
  | .unmarshalType msg _ => msg

/-- The struct the decoder has filled when the body is JSON text: after a decoding
without error, and also after an `UnmarshalTypeError`; `none` when the body is
not JSON. -/
def parsedFields : Except DecodeError Body → Option Body
  | .ok b => some b
  | .error (.unmarshalType _ b) => some b
  | .error (.notJSON _) => none

/-- Lines the handler sends to the log. -/
inductive LogLine (P : Type) where
  | cannotClose (reason : String)
  | runTimePanic (x : P)
deriving DecidableEq, Repr

/-- Behaviour of everything outside the repository for one request.  `P` is the
type of panic payloads, the values `recover()` hands to `finishHandle`; they are
never nil (a `panic(nil)` is delivered as a `*runtime.PanicNilError`).
* `fault s = some x`: the call `s` panics with payload `x` instead of returning;
* `jsonDecode body`: `json.NewDecoder(r.Body).Decode(body)`, the error or the struct;
* `text tr`: result of `client.Text()` after the engine calls `tr`;
* `closeErr tr`: error returned by `client.Close()`, if any;
* `castToString`: `cast.ToString`; `jsonMarshal`: `json.Marshal` of a string map. -/
structure Env (P : Type) where
  fault : Step → Option P
  jsonDecode : String → Except DecodeError Body
  text : List Event → Except String String
  closeErr : List Event → Option String
  castToString : P → String
  jsonMarshal : List (String × String) → String

/-- How a block of Go code is left: by returning, or with a panic in flight. -/
inductive Exit (P : Type) where
  | returned
  | panicking (x : P)
deriving DecidableEq, Repr

/-- Everything one run of the handler changes. -/
structure State (P : Type) where
  w : ResponseWriter
  trace : List Event
  log : List (LogLine P)
  bodyClosed : Bool
deriving DecidableEq, Repr

/-- The state in which the server calls the handler with writer `w`. -/
def State.init (P : Type) (w : ResponseWriter) : State P :=
  { w := w, trace := [], log := [], bodyClosed := false }

/-- Record one engine call. -/
def State.record {P : Type} (st : State P) (e : Event) : State P :=
  { st with trace := st.trace ++ [e] }

/-! Section: strings -/

namespace strings

/-- Go `strings.ContainsRune(cutset, r)`. -/
def ContainsRune (cutset : List Char) (r : Char) : Bool :=
  cutset.contains r

/-- Go `trimLeftUnicode`: drop runes from the front while they occur in `cutset`. -/
def trimLeftUnicode : List Char → List Char → List Char
  | [], _ => []
  | r :: s, cutset =>
    if !ContainsRune cutset r then r :: s else trimLeftUnicode s cutset

/-- Go `trimRightUnicode`: the same loop run from the last rune backwards. -/
def trimRightUnicode (s cutset : List Char) : List Char :=
  (trimLeftUnicode s.reverse cutset).reverse

/-- Go `strings.Trim` on rune sequences:
`if s == "" || cutset == "" return s`, then
`trimLeftUnicode(trimRightUnicode(s, cutset), cutset)`.  The one-byte and
ASCII-set fast paths of the library compute the same function as this path. -/
def TrimRunes (s cutset : List Char) : List Char :=
  if s = [] ∨ cutset = [] then s
  else trimLeftUnicode (trimRightUnicode s cutset) cutset

/-- Go `strings.Trim(s, cutset)`. -/
def Trim (s cutset : String) : String :=
  String.mk (TrimRunes s.data cutset.data)

/-- Go `strings.Index(s, sep)` for a one-byte separator; `none` stands for `-1`. -/
def Index (s : List Char) (sep : Char) : Option Nat :=
  let i := s.indexOf sep
  if i < s.length then some i else none

/-- The loop of Go `genSplit` (with `sepSave = 0` and a one-byte separator): at most
`n` cuts, each at the first separator of what is left. -/
def genSplitLoop : Nat → List Char → Char → List (List Char)
  | 0, s, _ => [s]
  | n + 1, s, sep =>
    match Index s sep with
    | none => [s]
    | some m => s.take m :: genSplitLoop n (s.drop (m + 1)) sep

/-- Go `genSplit(s, sep, 0, -1)` for a one-byte separator: `n = Count(s, sep) + 1`,
capped at `len(s) + 1`, and `n - 1` rounds of the loop. -/
def SplitRunes (s : List Char) (sep : Char) : List (List Char) :=
  let n := s.count sep + 1
  let n := if n > s.length + 1 then s.length + 1 else n
  genSplitLoop (n - 1) s sep

/-- Go `strings.Split(s, sep)` for a one-byte separator. -/
def Split (s : String) (sep : Char) : List String :=
  (SplitRunes s.data sep).map String.mk

/-- Go `strings.Join` on rune sequences, for a one-byte separator: the elements in
order with the separator between neighbours. -/
def JoinRunes : List (List Char) → Char → List Char
  | [], _ => []
  | [e], _ => e
  | e :: e2 :: es, sep => e ++ sep :: JoinRunes (e2 :: es) sep

/-- Go `strings.Join(elems, sep)` for a one-byte separator. -/
def Join (elems : List String) (sep : Char) : String :=
  String.mk (JoinRunes (elems.map String.data) sep)

end strings

/-! Section: encoding/base64, `StdEncoding` -/

namespace b64

/-- The alphabet of `StdEncoding` (RFC 4648, table 1). -/
def encodeStd : List Char :=
  "ABCDEFGHIJKLMNOPQRSTUVWXYZabcdefghijklmnopqrstuvwxyz0123456789+/".toList

/-- The padding character of `StdEncoding`. -/
def padChar : Char := '='

/-- Go `enc.decodeMap`: the position of the character in the alphabet, `0xff` for
every other input (in particular for every byte of a non-ASCII character). -/
def decodeMap (c : Char) : Nat :=
  let i := encodeStd.indexOf c
  if i < 64 then i else 0xff

/-- Go `enc.encode[i]`. -/
def encode (i : Nat) : Char :=
  encodeStd.getD i 'A'

/-- Go `byte(x)`: truncation to eight bits. -/
def toByte (x : Nat) : Byte :=
  ⟨x % 256, Nat.mod_lt _ (by decide)⟩

/-- The tail of Go `decodeQuantum`: the `dlen` sextets in `dbuf` (missing ones are
zero) are packed into a 24-bit value and the first `dlen - 1` bytes of it are
written (`StdEncoding` is not strict, trailing bits are not checked). -/
def assemble (dbuf : List Nat) (dlen : Nat) : List Byte :=
  let val := dbuf.getD 0 0 <<< 18 ||| dbuf.getD 1 0 <<< 12 ||| dbuf.getD 2 0 <<< 6 ||| dbuf.getD 3 0
  let b2 := toByte (val >>> 0)
  let b1 := toByte (val >>> 8)
  let b0 := toByte (val >>> 16)
  match dlen with
  | 4 => [b0, b1, b2]
  | 3 => [b0, b1]
  | 2 => [b0]
  | _ => []

/-- The loop `for si < len(src) && (src[si] == 0x0a || src[si] == 0x0d) si++`, on the
input that is left and its offset. -/
def skipNewlines : List Char → Nat → List Char × Nat
  | [], si => ([], si)
  | c :: rest, si =>
    if c = '\n' ∨ c = '\r' then skipNewlines rest (si + 1) else (c :: rest, si)

/-- What one call of Go `decodeQuantum` returns: the input left and its offset
`nsi`, the bytes written to `dst` (their number is the `n` of the Go code), and
the `CorruptInputError` offset if there is an error. -/
structure Quantum where
  rest : List Char
  nsi : Nat
  out : List Byte
  err : Option Nat
deriving DecidableEq, Repr

/-- The end of a quantum once its padding has been read: newlines are skipped,
anything left is trailing garbage, and the `j` sextets are converted. -/
def finishPadded (rest : List Char) (si : Nat) (dbuf : List Nat) : Quantum :=
  let p := skipNewlines rest si
  let err := if p.1 ≠ [] then some p.2 else none
  { rest := p.1, nsi := p.2, out := assemble dbuf dbuf.length, err := err }

/-- Go `decodeQuantum` for `StdEncoding`, on the input left at offset `si`; `dbuf`
holds the `j = dbuf.length` sextets read so far.  Branch by branch:
* input used up: `j == 0` returns `si, 0, nil`; otherwise (padded encoding)
  `CorruptInputError(si - j)`;
* `in := src[si]; si++`; a character of the alphabet is stored in `dbuf[j]`, and
  the fourth one ends the loop with `dlen = 4`;
* a line feed or carriage return is skipped (`j--; continue`);
* any other character that is not the padding: `CorruptInputError(si - 1)`;
* padding with `j` 0 or 1: `CorruptInputError(si - 1)`; with `j == 2` a second
  padding character must follow (newlines in between are skipped), else
  `CorruptInputError(len(src))` at the end of the input and
  `CorruptInputError(si - 1)` otherwise; then `finishPadded`. -/
def decodeQuantum : List Char → Nat → List Nat → Quantum
  | [], si, dbuf =>
    if dbuf.length = 0 then { rest := [], nsi := si, out := [], err := none }
    else { rest := [], nsi := si, out := [], err := some (si - dbuf.length) }
  | c :: rest, si, dbuf =>
    let out := decodeMap c
    if out ≠ 0xff then
      if dbuf.length = 3 then
        { rest := rest, nsi := si + 1, out := assemble (dbuf ++ [out]) 4, err := none }
      else decodeQuantum rest (si + 1) (dbuf ++ [out])
    else if c = '\n' ∨ c = '\r' then decodeQuantum rest (si + 1) dbuf
    else if c ≠ padChar then
      { rest := rest, nsi := si + 1, out := [], err := some si }
    else
      match dbuf.length with
      | 0 => { rest := rest, nsi := si + 1, out := [], err := some si }
      | 1 => { rest := rest, nsi := si + 1, out := [], err := some si }
      | 2 =>
        let p := skipNewlines rest (si + 1)
        match p.1 with
        | [] => { rest := [], nsi := p.2, out := [], err := some p.2 }
        | c1 :: rest1 =>
          if c1 ≠ padChar then
            { rest := c1 :: rest1, nsi := p.2, out := [], err := some (p.2 - 1) }
          else finishPadded rest1 (p.2 + 1) dbuf
      | _ => finishPadded rest (si + 1) dbuf

/-- The loop of Go `Encoding.Decode`: quanta are decoded until the input is used up
or one of them reports an error.  (The 8- and 4-character fast paths of the
library produce what `decodeQuantum` produces on the same characters.)  Every
round uses up at least one character, so `fuel = len(src)` rounds are enough. -/
def decodeLoop : Nat → List Char → Nat → List Byte → List Byte × Option Nat
  | 0, _, _, acc => (acc, none)
  | fuel + 1, src, si, acc =>
    if src = [] then (acc, none)
    else
      let q := decodeQuantum src si []
      match q.err with
      | some e => (acc ++ q.out, some e)
      | none => decodeLoop fuel q.rest q.nsi (acc ++ q.out)

/-- Go `StdEncoding.DecodeString`: the decoded bytes and the error, if any. -/
def DecodeString (s : String) : List Byte × Option Nat :=
  decodeLoop s.data.length s.data 0 []

/-- Go `CorruptInputError.Error()`. -/
def CorruptInputError (e : Nat) : String :=
  "illegal base64 data at input byte " ++ toString e

/-- Go `Encoding.Encode` for `StdEncoding`: three bytes give four characters, a last
group of one or two bytes is padded with `=`. -/
def EncodeRunes : List Byte → List Char
  | [] => []
  | [a] =>
    let val := a.val <<< 16
    [encode (val >>> 18 &&& 0x3F), encode (val >>> 12 &&& 0x3F), padChar, padChar]
  | [a, b] =>
    let val := a.val <<< 16 ||| b.val <<< 8
    [encode (val >>> 18 &&& 0x3F), encode (val >>> 12 &&& 0x3F),
      encode (val >>> 6 &&& 0x3F), padChar]
  | a :: b :: c :: rest =>
    let val := a.val <<< 16 ||| b.val <<< 8 ||| c.val
    encode (val >>> 18 &&& 0x3F) :: encode (val >>> 12 &&& 0x3F) ::
      encode (val >>> 6 &&& 0x3F) :: encode (val &&& 0x3F) :: EncodeRunes rest

/-- Go `StdEncoding.EncodeToString`. -/
def EncodeToString (src : List Byte) : String :=
  String.mk (EncodeRunes src)

/-- Whether the character belongs to the alphabet of `StdEncoding`. -/
def inAlphabet (c : Char) : Bool :=
  encodeStd.contains c

/-- Valid standard padded base64 as RFC 4648 section 4 describes it: groups of four
characters of the alphabet, where the last group may instead end in one or in
two padding characters.  No other character is allowed. -/
def ValidStd : List Char → Bool
  | [] => true
  | a :: b :: c :: d :: rest =>
    inAlphabet a && inAlphabet b &&
      ((inAlphabet c && inAlphabet d && ValidStd rest) ||
        (rest.isEmpty && inAlphabet c && d == padChar) ||
        (rest.isEmpty && c == padChar && d == padChar))
  | _ => false

/-- The input with every line feed and carriage return removed. -/
def dropNewlines (s : List Char) : List Char :=
  s.filter (fun c => !(c == '\n' || c == '\r'))

end b64

/-! Section: `main.go` -/

/-- `errorResponse` (`main.go` lines 131-137): the failure envelope is marshalled
and sent through `http.Error`. -/
def errorResponse {P : Type} (env : Env P) (code : Nat) (error : String)
    (w : ResponseWriter) : ResponseWriter :=
  let response := [("status", "failure"), ("error", error)]
  let bytedata := env.jsonMarshal response
  httpError w bytedata code

/-- `finishHandle` (`main.go` lines 139-144), deferred first and therefore run last:
a panic in flight is recovered, logged and answered with a 500 envelope. -/
def finishHandle {P : Type} (env : Env P) (r : State P × Exit P) : State P × Exit P :=
  match r.2 with
  | .panicking x =>
    ({ r.1 with
        log := r.1.log ++ [LogLine.runTimePanic x],
        w := errorResponse env 500 (env.castToString x) r.1.w }, .returned)
  | .returned => r

/-- The deferred closure of `main.go` lines 102-107: `client.Close()` is called
whatever way the code after it was left; an error is only logged; a panic inside
`Close` replaces the one in flight. -/
def deferredClose {P : Type} (env : Env P) (r : State P × Exit P) : State P × Exit P :=
  let st := r.1.record .close
  match env.fault .close with
  | some x => (st, .panicking x)
  | none =>
    match env.closeErr st.trace with
    | some err => ({ st with log := st.log ++ [LogLine.cannotClose err] }, r.2)
    | none => (st, r.2)

/-- The code of `base64` from line 108 to line 128, which runs with the deferred
`Close` registered. -/
def useClient {P : Type} (env : Env P) (body : Body) (b : List Byte) (st : State P) :
    State P × Exit P :=
  let languages := if body.Languages ≠ "" then strings.Split body.Languages ',' else ["eng"]
  let st := st.record (.setImageFromBytes b)
  match env.fault .setImageFromBytes with
  | some x => (st, .panicking x)
  | none =>
    let stW := if body.Whitelist ≠ "" then st.record (.setWhitelist body.Whitelist) else st
    match (if body.Whitelist ≠ "" then env.fault .setWhitelist else none) with
    | some x => (stW, .panicking x)
    | none =>
      let stT := stW.record (.text languages)
      match env.fault .text with
      | some x => (stT, .panicking x)
      | none =>
        match env.text stT.trace with
        | .error err => ({ stT with w := errorResponse env 400 err stT.w }, .returned)
        | .ok text =>
          let response := [("status", "success"), ("result", strings.Trim text body.Trim)]
          let bytedata := env.jsonMarshal response
          let w := stT.w.WriteHeader 200
          let w := w.Write bytedata
          ({ stT with w := w }, .returned)

/-- The body of `base64` (`main.go` lines 65-128) without the two outer deferred
calls. -/
def handle {P : Type} (env : Env P) (apikey : String) (r : Request) (st : State P) :
    State P × Exit P :=
  let w := st.w
  let w := { w with header := Header.Set w.header "Content-Type" "application/json" }
  let w := { w with header := Header.Set w.header "Access-Control-Allow-Origin" "*" }
  let st := { st with w := w }
  if Header.Get r.header "Diggernauth" ≠ apikey then
    ({ st with w := errorResponse env 403 "Invalid API key" st.w }, .returned)
  else
    match env.fault .jsonDecode with
    | some x => (st, .panicking x)
    | none =>
      match env.jsonDecode r.body with
      | .error err => ({ st with w := errorResponse env 400 err.Error st.w }, .returned)
      | .ok body =>
        if body.Base64.length = 0 then
          ({ st with w := errorResponse env 400 "base64 string required" st.w }, .returned)
        else
          match env.fault .b64Decode with
          | some x => (st, .panicking x)
          | none =>
            match b64.DecodeString body.Base64 with
            | (_, some e) =>
              ({ st with w := errorResponse env 400 (b64.CorruptInputError e) st.w }, .returned)
            | (b, none) =>
              let st := st.record .newClient
              match env.fault .newClient with
              | some x => (st, .panicking x)
              | none =>
                if body.PSM > 0 then
                  let st := st.record (.setPageSegMode body.PSM)
                  match env.fault .setPageSegMode with
                  | some x => (st, .panicking x)
                  | none => deferredClose env (useClient env body b st)
                else deferredClose env (useClient env body b st)

/-- The handler `base64` (`main.go` lines 62-129) called with writer `w` and request
`r`: the body, then the deferred `finishHandle`, then the deferred
`r.Body.Close()`.  The result is the final state and how the handler is left. -/
def base64 {P : Type} (env : Env P) (apikey : String) (w : ResponseWriter) (r : Request) :
    State P × Exit P :=
  let res := finishHandle env (handle env apikey r (State.init P w))
  ({ res.1 with bodyClosed := true }, res.2)

/-! Section: a test double and sample requests -/

/-- The engine calls a request with these fields and this image makes up to and
including the request for text, when none of them panics. -/
def engineCalls (body : Body) (b : List Byte) : List Event :=
  [Event.newClient] ++ (if body.PSM > 0 then [Event.setPageSegMode body.PSM] else []) ++
    [Event.setImageFromBytes b] ++
    (if body.Whitelist ≠ "" then [Event.setWhitelist body.Whitelist] else []) ++
    [Event.text (if body.Languages ≠ "" then strings.Split body.Languages ',' else ["eng"])]

/-- A double for the collaborators with fixed answers; panic payloads are strings
and stringify to themselves, a map is marshalled as `key=value` pairs. -/
def doubleWith (fault : Step → Option String) (decoded : Except DecodeError Body)
    (text : Except String String) (closeErr : Option String) : Env String :=
  { fault := fault,
    jsonDecode := fun _ => decoded,
    text := fun _ => text,
    closeErr := fun _ => closeErr,
    castToString := fun x => x,
    jsonMarshal := fun m => String.intercalate ";" (m.map (fun kv => kv.1 ++ "=" ++ kv.2)) }

/-- The double whose JSON decoder either fills the struct or finds that the body is
not JSON (with the given error text). -/
def double (fault : Step → Option String) (decoded : Except String Body)
    (text : Except String String) (closeErr : Option String) : Env String :=
  doubleWith fault
    (match decoded with
      | .ok b => .ok b
      | .error msg => .error (DecodeError.notJSON msg))
    text closeErr

/-- No call panics. -/
def noFault : Step → Option String :=
  fun _ => none

/-- Exactly the call `s` panics, with payload `x`. -/
def faultAt (s : Step) (x : String) : Step → Option String :=
  fun t => if t = s then some x else none

/-- A request carrying the key in its `Diggernauth` header. -/
def post (key : String) : Request :=
  { header := [("Diggernauth", [key])], body := "" }

/-- A request without a `Diggernauth` header. -/
def anonymous : Request :=
  { header := [("Accept", ["application/json"])], body := "" }

/-- Decoded request fields with the given image text and segmentation mode. -/
def fields (image : String) (psm : Int) : Body :=
  { Base64 := image, Trim := " x", Languages := "eng,fra", Whitelist := "", PSM := psm }

/-- A request with the right key whose body is the given text. -/
def postBody (key body : String) : Request :=
  { header := [("Diggernauth", [key])], body := body }

/-- The struct before decoding, and after decoding a body that sets no field. -/
def zeroFields : Body :=
  { Base64 := "", Trim := "", Languages := "", Whitelist := "", PSM := 0 }

/-- A body that is JSON with an empty `base64` and a number where `trim` wants a
string. -/
def numberForTrim : String :=
  "\x7b\"base64\":\"\",\"trim\":5\x7d"

/-- The decoder on `numberForTrim`: `trim` is skipped, the error names it. -/
def numberForTrimDecoded : Except DecodeError Body :=
  .error (DecodeError.unmarshalType
    "json: cannot unmarshal number into Go struct field .trim of type string" zeroFields)

/-- A body that is JSON with an undecodable `base64` and a string where `psm` wants
an integer. -/
def stringForPsm : String :=
  "\x7b\"base64\":\"a*==\",\"psm\":\"three\"\x7d"

/-- The decoder on `stringForPsm`: `base64` is stored, `psm` is skipped, the error
names it. -/
def stringForPsmDecoded : Except DecodeError Body :=
  .error (DecodeError.unmarshalType
    "json: cannot unmarshal string into Go struct field .psm of type gosseract.PageSegMode"
    { zeroFields with Base64 := "a*==" })

/-- A run in which nothing panics: the body decodes to an image `aGk=` with
`psm = 3`, recognition yields the text ` xhi x`, and `Close` succeeds. -/
def happy : Env String :=
  double noFault (Except.ok (fields "aGk=" 3)) (Except.ok " xhi x") none


/-! Section: proofs -/

namespace strings

theorem containsRune_iff (cutset : List Char) (r : Char) :
    ContainsRune cutset r = true ↔ r ∈ cutset := by
  simp [ContainsRune]

theorem trimLeftUnicode_spec (cutset : List Char) (s : List Char) :
    ∃ p, s = p ++ trimLeftUnicode s cutset ∧ (∀ c ∈ p, c ∈ cutset) ∧
      (∀ c, (trimLeftUnicode s cutset).head? = some c → c ∉ cutset) := by
  induction s with
  | nil => exact ⟨[], by simp [trimLeftUnicode]⟩
  | cons r s ih =>
    by_cases hr : r ∈ cutset
    · have hc : ContainsRune cutset r = true := (containsRune_iff cutset r).2 hr
      obtain ⟨p, hp, hin, hhead⟩ := ih
      refine ⟨r :: p, ?_, ?_, ?_⟩
      · simp only [trimLeftUnicode, hc, List.cons_append]
        exact congrArg (List.cons r) hp
      · intro c hc
        rcases List.mem_cons.1 hc with h | h
        · exact h ▸ hr
        · exact hin c h
      · simpa only [trimLeftUnicode, hc] using hhead
    · have hc : ContainsRune cutset r = false := by
        cases h : ContainsRune cutset r
        · rfl
        · exact absurd ((containsRune_iff cutset r).1 h) hr
      refine ⟨[], ?_, ?_, ?_⟩
      · simp [trimLeftUnicode, hc]
      · simp
      · intro c hc'
        simp [trimLeftUnicode, hc] at hc'
        exact hc' ▸ hr

theorem trimRightUnicode_spec (cutset : List Char) (s : List Char) :
    ∃ q, s = trimRightUnicode s cutset ++ q ∧ (∀ c ∈ q, c ∈ cutset) ∧
      (∀ c, (trimRightUnicode s cutset).getLast? = some c → c ∉ cutset) := by
  obtain ⟨p, hp, hin, hhead⟩ := trimLeftUnicode_spec cutset s.reverse
  refine ⟨p.reverse, ?_, ?_, ?_⟩
  · have := congrArg List.reverse hp
    simpa [trimRightUnicode] using this
  · intro c hc
    exact hin c (List.mem_reverse.1 hc)
  · intro c hc
    apply hhead c
    simpa [trimRightUnicode] using hc

theorem trimRunes_spec (s cutset : List Char) :
    ∃ p q, s = p ++ TrimRunes s cutset ++ q ∧
      (∀ c ∈ p, c ∈ cutset) ∧ (∀ c ∈ q, c ∈ cutset) ∧
      (∀ c, (TrimRunes s cutset).head? = some c → c ∉ cutset) ∧
      (∀ c, (TrimRunes s cutset).getLast? = some c → c ∉ cutset) := by
  by_cases h : s = [] ∨ cutset = []
  · refine ⟨[], [], by simp [TrimRunes, h], by simp, by simp, ?_, ?_⟩
    · intro c hc
      rcases h with h | h
      · simp [TrimRunes, h] at hc
      · simp [h]
    · intro c hc
      rcases h with h | h
      · simp [TrimRunes, h] at hc
      · simp [h]
  · obtain ⟨q, hq, hqin, hlast⟩ := trimRightUnicode_spec cutset s
    obtain ⟨p, hp, hpin, hhead⟩ := trimLeftUnicode_spec cutset (trimRightUnicode s cutset)
    have hT : TrimRunes s cutset = trimLeftUnicode (trimRightUnicode s cutset) cutset := by
      simp [TrimRunes, h]
    refine ⟨p, q, ?_, hpin, hqin, ?_, ?_⟩
    · rw [hT, ← hp, ← hq]
    · rw [hT]; exact hhead
    · rw [hT]
      intro c hc
      apply hlast c
      rw [hp]
      have hne : trimLeftUnicode (trimRightUnicode s cutset) cutset ≠ [] := by
        intro h0
        simp [h0] at hc
      rw [List.getLast?_append_of_ne_nil _ hne]
      exact hc

theorem trim_empty_cutset (s : String) : Trim s "" = s := by
  simp [Trim, TrimRunes]

theorem index_none (sep : Char) (s : List Char) (h : Index s sep = none) : sep ∉ s := by
  unfold Index at h
  by_cases hlt : List.indexOf sep s < s.length
  · simp [hlt] at h
  · intro hmem
    exact hlt (List.indexOf_lt_length.2 hmem)

theorem index_some (sep : Char) (s : List Char) (m : Nat) (h : Index s sep = some m) :
    s = s.take m ++ sep :: s.drop (m + 1) ∧ sep ∉ s.take m := by
  unfold Index at h
  by_cases hlt : List.indexOf sep s < s.length
  · simp only [hlt, if_true, Option.some.injEq] at h
    subst h
    induction s with
    | nil => simp at hlt
    | cons c s ih =>
      by_cases hc : c = sep
      · subst hc
        simp [List.indexOf_cons_eq]
      · have hmem : List.indexOf sep s < s.length := by
          rw [List.indexOf_cons_ne _ hc] at hlt
          simpa using hlt
        rw [List.indexOf_cons_ne _ hc]
        obtain ⟨h1, h2⟩ := ih hmem
        refine ⟨?_, ?_⟩
        · simp only [List.take_succ_cons, List.drop_succ_cons, List.cons_append]
          exact congrArg (List.cons c) h1
        · simp only [List.take_succ_cons, List.mem_cons, not_or]
          exact ⟨fun h => hc h.symm, h2⟩
  · simp [hlt] at h

theorem genSplitLoop_ne_nil (sep : Char) (n : Nat) (s : List Char) :
    genSplitLoop n s sep ≠ [] := by
  cases n with
  | zero => simp [genSplitLoop]
  | succ n =>
    unfold genSplitLoop
    split <;> simp

theorem joinRunes_cons (sep : Char) (e : List Char) (es : List (List Char)) (h : es ≠ []) :
    JoinRunes (e :: es) sep = e ++ sep :: JoinRunes es sep := by
  cases es with
  | nil => exact absurd rfl h
  | cons e2 es => rfl

theorem genSplitLoop_spec (sep : Char) (n : Nat) :
    ∀ s : List Char, s.count sep ≤ n →
      JoinRunes (genSplitLoop n s sep) sep = s ∧ ∀ p ∈ genSplitLoop n s sep, sep ∉ p := by
  induction n with
  | zero =>
    intro s hs
    have hmem : sep ∉ s := List.count_eq_zero.1 (Nat.le_zero.1 hs)
    simp [genSplitLoop, JoinRunes, hmem]
  | succ n ih =>
    intro s hs
    unfold genSplitLoop
    cases hI : Index s sep with
    | none =>
      have hmem : sep ∉ s := index_none sep s hI
      simp [JoinRunes, hmem]
    | some m =>
      obtain ⟨hsplit, hpre⟩ := index_some sep s m hI
      have hcount : (s.drop (m + 1)).count sep ≤ n := by
        have h1 := congrArg (List.count sep) hsplit
        rw [List.count_append, List.count_cons_self, List.count_eq_zero.2 hpre] at h1
        omega
      obtain ⟨hj, hp⟩ := ih (s.drop (m + 1)) hcount
      refine ⟨?_, ?_⟩
      · show JoinRunes (s.take m :: genSplitLoop n (s.drop (m + 1)) sep) sep = s
        rw [joinRunes_cons sep _ _ (genSplitLoop_ne_nil sep n _), hj]
        exact hsplit.symm
      · intro p hpmem
        rcases List.mem_cons.1 hpmem with h | h
        · rw [h]; exact hpre
        · exact hp p h

theorem splitRunes_spec (sep : Char) (s : List Char) :
    JoinRunes (SplitRunes s sep) sep = s ∧ ∀ p ∈ SplitRunes s sep, sep ∉ p := by
  have hle : s.count sep ≤ s.length := List.count_le_length sep s
  have hn : (if s.count sep + 1 > s.length + 1 then s.length + 1 else s.count sep + 1) - 1
      = s.count sep := by
    split <;> omega
  unfold SplitRunes
  simp only [hn]
  exact genSplitLoop_spec sep (s.count sep) s (Nat.le_refl _)

theorem join_split (s : String) (sep : Char) : Join (Split s sep) sep = s := by
  have h := (splitRunes_spec sep s.data).1
  simp only [Join, Split, List.map_map]
  have hid : (String.data ∘ String.mk) = (fun x : List Char => x) := rfl
  rw [hid, List.map_id']
  rw [h]

theorem split_pieces (s : String) (sep : Char) : ∀ p ∈ Split s sep, sep ∉ p.data := by
  intro p hp
  simp only [Split, List.mem_map] at hp
  obtain ⟨q, hq, rfl⟩ := hp
  exact (splitRunes_spec sep s.data).2 q hq

end strings

namespace b64

theorem or_eq_add (k q x y : Nat) (hx : x = 2 ^ k * q) (hy : y < 2 ^ k) :
    x ||| y = x + y := by
  subst hx
  exact (Nat.mul_add_lt_is_or hy q).symm

theorem and63 (x : Nat) : x &&& 0x3F = x % 64 :=
  Nat.and_pow_two_sub_one_eq_mod x 6

set_option maxRecDepth 100000 in
theorem decodeMap_encode_fin : ∀ i : Fin 64, decodeMap (encode i.val) = i.val := by
  decide

theorem decodeMap_encode (i : Nat) (h : i < 64) : decodeMap (encode i) = i :=
  decodeMap_encode_fin ⟨i, h⟩

theorem pack3 (a b c : Nat) (hb : b < 256) (hc : c < 256) :
    a <<< 16 ||| b <<< 8 ||| c = a * 65536 + b * 256 + c := by
  rw [or_eq_add 16 a (a <<< 16) (b <<< 8) (by omega) (by omega)]
  rw [or_eq_add 8 (a * 256 + b) (a <<< 16 + b <<< 8) c (by omega) (by omega)]
  omega

theorem pack4 (s0 s1 s2 s3 : Nat) (h1 : s1 < 64) (h2 : s2 < 64) (h3 : s3 < 64) :
    s0 <<< 18 ||| s1 <<< 12 ||| s2 <<< 6 ||| s3 = s0 * 262144 + s1 * 4096 + s2 * 64 + s3 := by
  rw [or_eq_add 18 s0 (s0 <<< 18) (s1 <<< 12) (by omega) (by omega)]
  rw [or_eq_add 12 (s0 * 64 + s1) (s0 <<< 18 + s1 <<< 12) (s2 <<< 6) (by omega) (by omega)]
  rw [or_eq_add 6 (s0 * 4096 + s1 * 64 + s2) (s0 <<< 18 + s1 <<< 12 + s2 <<< 6) s3
    (by omega) (by omega)]
  omega

theorem sextet_ne (s : Nat) (h : s < 64) : ¬ s = 255 := by omega

theorem sextet_lt (x : Nat) : x &&& 0x3F < 64 := by
  rw [and63]; omega

theorem toByte_val (a : Byte) (x : Nat) (h : x % 256 = a.val) : toByte x = a := by
  apply Fin.ext
  simpa [toByte] using h

theorem decodeQuantum_full (s0 s1 s2 s3 : Nat) (h0 : s0 < 64) (h1 : s1 < 64) (h2 : s2 < 64)
    (h3 : s3 < 64) (rest : List Char) (si : Nat) :
    decodeQuantum (encode s0 :: encode s1 :: encode s2 :: encode s3 :: rest) si [] =
      { rest := rest, nsi := si + 4, out := assemble [s0, s1, s2, s3] 4, err := none } := by
  simp [decodeQuantum, decodeMap_encode, h0, h1, h2, h3, sextet_ne]

theorem decodeQuantum_pad2 (s0 s1 : Nat) (h0 : s0 < 64) (h1 : s1 < 64) (si : Nat) :
    decodeQuantum [encode s0, encode s1, padChar, padChar] si [] =
      { rest := [], nsi := si + 4, out := assemble [s0, s1] 2, err := none } := by
  have hp : decodeMap padChar = 255 := by decide
  have hn : ¬ (padChar = '\n' ∨ padChar = '\r') := by decide
  simp [decodeQuantum, decodeMap_encode, h0, h1, sextet_ne, hp, hn, skipNewlines, finishPadded]

theorem decodeQuantum_pad1 (s0 s1 s2 : Nat) (h0 : s0 < 64) (h1 : s1 < 64) (h2 : s2 < 64)
    (si : Nat) :
    decodeQuantum [encode s0, encode s1, encode s2, padChar] si [] =
      { rest := [], nsi := si + 4, out := assemble [s0, s1, s2] 3, err := none } := by
  have hp : decodeMap padChar = 255 := by decide
  have hn : ¬ (padChar = '\n' ∨ padChar = '\r') := by decide
  simp [decodeQuantum, decodeMap_encode, h0, h1, h2, sextet_ne, hp, hn, skipNewlines,
    finishPadded]

theorem assemble_three (a b c : Byte) :
    assemble [(a.val <<< 16 ||| b.val <<< 8 ||| c.val) >>> 18 &&& 0x3F,
      (a.val <<< 16 ||| b.val <<< 8 ||| c.val) >>> 12 &&& 0x3F,
      (a.val <<< 16 ||| b.val <<< 8 ||| c.val) >>> 6 &&& 0x3F,
      (a.val <<< 16 ||| b.val <<< 8 ||| c.val) &&& 0x3F] 4 = [a, b, c] := by
  have ha := a.isLt
  have hb := b.isLt
  have hc := c.isLt
  simp only [assemble, List.getD_cons_zero, List.getD_cons_succ]
  rw [pack4 _ _ _ _ (sextet_lt _) (sextet_lt _) (sextet_lt _)]
  simp only [and63, pack3 _ _ _ hb hc]
  simp only [List.cons.injEq, and_true]
  refine ⟨toByte_val a _ ?_, toByte_val b _ ?_, toByte_val c _ ?_⟩ <;> omega

theorem assemble_two (a b : Byte) :
    assemble [(a.val <<< 16 ||| b.val <<< 8) >>> 18 &&& 0x3F,
      (a.val <<< 16 ||| b.val <<< 8) >>> 12 &&& 0x3F,
      (a.val <<< 16 ||| b.val <<< 8) >>> 6 &&& 0x3F] 3 = [a, b] := by
  have ha := a.isLt
  have hb := b.isLt
  simp only [assemble, List.getD_cons_zero, List.getD_cons_succ, List.getD_nil]
  rw [pack4 _ _ _ _ (sextet_lt _) (sextet_lt _) (by omega)]
  rw [or_eq_add 16 a.val (a.val <<< 16) (b.val <<< 8) (by omega) (by omega)]
  simp only [and63]
  simp only [List.cons.injEq, and_true]
  refine ⟨toByte_val a _ ?_, toByte_val b _ ?_⟩ <;> omega

theorem assemble_one (a : Byte) :
    assemble [(a.val <<< 16) >>> 18 &&& 0x3F, (a.val <<< 16) >>> 12 &&& 0x3F] 2 = [a] := by
  have ha := a.isLt
  simp only [assemble, List.getD_cons_zero, List.getD_cons_succ, List.getD_nil]
  rw [pack4 _ _ _ _ (sextet_lt _) (by omega) (by omega)]
  simp only [and63]
  simp only [List.cons.injEq, and_true]
  exact toByte_val a _ (by omega)

theorem decodeLoop_nil (fuel si : Nat) (acc : List Byte) :
    decodeLoop fuel [] si acc = (acc, none) := by
  cases fuel <;> simp [decodeLoop]

theorem decodeLoop_step (fuel si : Nat) (acc : List Byte) (src : List Char) (q : Quantum)
    (hne : src ≠ []) (hq : decodeQuantum src si [] = q) (herr : q.err = none) :
    decodeLoop (fuel + 1) src si acc = decodeLoop fuel q.rest q.nsi (acc ++ q.out) := by
  simp [decodeLoop, hne, hq, herr]

theorem decodeLoop_encode (B : List Byte) :
    ∀ (fuel si : Nat) (acc : List Byte), (EncodeRunes B).length ≤ fuel →
      decodeLoop fuel (EncodeRunes B) si acc = (acc ++ B, none) := by
  induction B using EncodeRunes.induct with
  | case1 =>
    intro fuel si acc _
    simp [EncodeRunes, decodeLoop_nil]
  | case2 a =>
    intro fuel si acc hfuel
    obtain ⟨f, rfl⟩ : ∃ f, fuel = f + 1 := ⟨fuel - 1, by simp [EncodeRunes] at hfuel; omega⟩
    simp only [EncodeRunes]
    rw [decodeLoop_step f si acc _ _ (by simp)
      (decodeQuantum_pad2 _ _ (sextet_lt _) (sextet_lt _) si) rfl]
    simp only [decodeLoop_nil, assemble_one]
  | case3 a b =>
    intro fuel si acc hfuel
    obtain ⟨f, rfl⟩ : ∃ f, fuel = f + 1 := ⟨fuel - 1, by simp [EncodeRunes] at hfuel; omega⟩
    simp only [EncodeRunes]
    rw [decodeLoop_step f si acc _ _ (by simp)
      (decodeQuantum_pad1 _ _ _ (sextet_lt _) (sextet_lt _) (sextet_lt _) si) rfl]
    simp only [decodeLoop_nil, assemble_two]
  | case4 a b c rest ih =>
    intro fuel si acc hfuel
    obtain ⟨f, rfl⟩ : ∃ f, fuel = f + 1 := ⟨fuel - 1, by simp [EncodeRunes] at hfuel; omega⟩
    have hlen : (EncodeRunes rest).length ≤ f := by
      simp [EncodeRunes] at hfuel; omega
    simp only [EncodeRunes]
    rw [decodeLoop_step f si acc _ _ (by simp)
      (decodeQuantum_full _ _ _ _ (sextet_lt _) (sextet_lt _) (sextet_lt _) (sextet_lt _) _ si)
      rfl]
    simp only [assemble_three]
    rw [ih f (si + 4) (acc ++ [a, b, c]) hlen]
    simp

theorem decodeString_encodeToString (B : List Byte) :
    DecodeString (EncodeToString B) = (B, none) := by
  simp only [DecodeString, EncodeToString]
  rw [decodeLoop_encode B _ 0 [] (Nat.le_refl _)]
  simp

theorem encodeStd_length : encodeStd.length = 64 := by decide

theorem inAlphabet_iff (c : Char) : inAlphabet c = true ↔ c ∈ encodeStd := by
  simp [inAlphabet]

theorem decodeMap_ne_iff (c : Char) : decodeMap c ≠ 0xff ↔ inAlphabet c = true := by
  rw [inAlphabet_iff, ← List.indexOf_lt_length, encodeStd_length]
  unfold decodeMap
  constructor
  · intro h
    by_contra hlt
    simp [hlt] at h
  · intro h
    simp only [h, if_true]
    omega

set_option maxRecDepth 100000 in
theorem alphabet_plain : ∀ c ∈ encodeStd, ¬ (c = '\n' ∨ c = '\r') ∧ c ≠ padChar := by
  decide

theorem dropNewlines_cons_keep (c : Char) (s : List Char) (h : ¬ (c = '\n' ∨ c = '\r')) :
    dropNewlines (c :: s) = c :: dropNewlines s := by
  simp only [not_or] at h
  simp [dropNewlines, h.1, h.2]

theorem dropNewlines_cons_skip (c : Char) (s : List Char) (h : c = '\n' ∨ c = '\r') :
    dropNewlines (c :: s) = dropNewlines s := by
  rcases h with h | h <;> simp [dropNewlines, h]

theorem skipNewlines_spec (s : List Char) :
    ∀ si, (skipNewlines s si).1.length ≤ s.length ∧
      dropNewlines (skipNewlines s si).1 = dropNewlines s := by
  induction s with
  | nil => intro si; simp [skipNewlines]
  | cons c s ih =>
    intro si
    by_cases h : c = '\n' ∨ c = '\r'
    · simp only [skipNewlines, h, if_true]
      rw [dropNewlines_cons_skip c s h]
      exact ⟨Nat.le_succ_of_le (ih _).1, (ih _).2⟩
    · simp [skipNewlines, h]

theorem finishPadded_sound (rest : List Char) (si : Nat) (dbuf : List Nat)
    (h : (finishPadded rest si dbuf).err = none) :
    (finishPadded rest si dbuf).rest = [] ∧ dropNewlines rest = [] := by
  have hs := (skipNewlines_spec rest si).2
  by_cases he : (skipNewlines rest si).1 = []
  · refine ⟨by simp [finishPadded, he], ?_⟩
    rw [← hs, he]
    rfl
  · simp [finishPadded, he] at h

theorem validStd_pad2 (x y : Char) (hx : inAlphabet x = true) (hy : inAlphabet y = true) :
    ValidStd [x, y, padChar, padChar] = true := by
  simp [ValidStd, hx, hy]

theorem validStd_pad1 (x y z : Char) (hx : inAlphabet x = true) (hy : inAlphabet y = true)
    (hz : inAlphabet z = true) : ValidStd [x, y, z, padChar] = true := by
  simp [ValidStd, hx, hy, hz]

theorem validStd_full (x y z c : Char) (t : List Char) (hx : inAlphabet x = true)
    (hy : inAlphabet y = true) (hz : inAlphabet z = true) (hc : inAlphabet c = true)
    (ht : ValidStd t = true) : ValidStd (x :: y :: z :: c :: t) = true := by
  simp [ValidStd, hx, hy, hz, hc, ht]

theorem padChar_plain : ¬ (padChar = '\n' ∨ padChar = '\r') := by decide

theorem decodeQuantum_sound (s : List Char) :
    ∀ (si : Nat) (dbuf : List Nat) (pre : List Char),
      pre.length = dbuf.length → dbuf.length ≤ 3 → (∀ c ∈ pre, inAlphabet c = true) →
      (decodeQuantum s si dbuf).err = none →
      (decodeQuantum s si dbuf).rest.length ≤ s.length ∧
      (s ≠ [] → (decodeQuantum s si dbuf).rest.length < s.length) ∧
      (ValidStd (dropNewlines (decodeQuantum s si dbuf).rest) = true →
        ValidStd (pre ++ dropNewlines s) = true) := by
  induction s with
  | nil =>
    intro si dbuf pre hlen _ _ herr
    by_cases h0 : dbuf.length = 0
    · have hpre : pre = [] := List.length_eq_zero.1 (hlen.trans h0)
      subst hpre
      simp [decodeQuantum, h0, dropNewlines]
    · simp [decodeQuantum, h0] at herr
  | cons c rest ih =>
    intro si dbuf pre hlen hle hpre herr
    by_cases hA : decodeMap c ≠ 0xff
    · have hcA : inAlphabet c = true := (decodeMap_ne_iff c).1 hA
      have hplain := (alphabet_plain c ((inAlphabet_iff c).1 hcA)).1
      by_cases h3 : dbuf.length = 3
      · have hq : decodeQuantum (c :: rest) si dbuf =
            { rest := rest, nsi := si + 1, out := assemble (dbuf ++ [decodeMap c]) 4,
              err := none } := by
          simp [decodeQuantum, hA, h3]
        rw [hq]
        refine ⟨Nat.le_succ _, fun _ => Nat.lt_succ_self _, ?_⟩
        intro hv
        rw [dropNewlines_cons_keep c rest hplain]
        match pre, hlen.trans h3, hpre with
        | [x, y, z], _, hp =>
          exact validStd_full x y z c _ (hp x (by simp)) (hp y (by simp)) (hp z (by simp)) hcA hv
      · have hq : decodeQuantum (c :: rest) si dbuf =
            decodeQuantum rest (si + 1) (dbuf ++ [decodeMap c]) := by
          simp [decodeQuantum, hA, h3]
        rw [hq] at herr ⊢
        have hpre' : ∀ d ∈ pre ++ [c], inAlphabet d = true := by
          intro d hd
          rcases List.mem_append.1 hd with h | h
          · exact hpre d h
          · rw [List.mem_singleton.1 h]; exact hcA
        obtain ⟨h1, _, h2⟩ := ih (si + 1) (dbuf ++ [decodeMap c]) (pre ++ [c])
          (by simp [hlen]) (by simp; omega) hpre' herr
        refine ⟨Nat.le_succ_of_le h1, fun _ => Nat.lt_succ_of_le h1, ?_⟩
        intro hv
        rw [dropNewlines_cons_keep c rest hplain]
        simpa using h2 hv
    · have hA' : decodeMap c = 0xff := not_not.1 hA
      by_cases hN : c = '\n' ∨ c = '\r'
      · have hq : decodeQuantum (c :: rest) si dbuf = decodeQuantum rest (si + 1) dbuf := by
          simp [decodeQuantum, hA', hN]
        rw [hq] at herr ⊢
        obtain ⟨h1, _, h2⟩ := ih (si + 1) dbuf pre hlen hle hpre herr
        refine ⟨Nat.le_succ_of_le h1, fun _ => Nat.lt_succ_of_le h1, ?_⟩
        intro hv
        rw [dropNewlines_cons_skip c rest hN]
        exact h2 hv
      · by_cases hP : c = padChar
        · subst hP
          rw [dropNewlines_cons_keep padChar rest hN]
          match hd : dbuf.length, hle with
          | 0, _ => simp [decodeQuantum, hA', hN, hd] at herr
          | 1, _ => simp [decodeQuantum, hA', hN, hd] at herr
          | 2, _ =>
            have hq : decodeQuantum (padChar :: rest) si dbuf =
                (match (skipNewlines rest (si + 1)).1 with
                | [] => { rest := [], nsi := (skipNewlines rest (si + 1)).2, out := [],
                          err := some (skipNewlines rest (si + 1)).2 }
                | c1 :: rest1 =>
                  if c1 ≠ padChar then
                    { rest := c1 :: rest1, nsi := (skipNewlines rest (si + 1)).2, out := [],
                      err := some ((skipNewlines rest (si + 1)).2 - 1) }
                  else finishPadded rest1 ((skipNewlines rest (si + 1)).2 + 1) dbuf) := by
              simp [decodeQuantum, hA', hN, hd]
            rw [hq] at herr ⊢
            have hskip := skipNewlines_spec rest (si + 1)
            cases hp1 : (skipNewlines rest (si + 1)).1 with
            | nil => simp [hp1] at herr
            | cons c1 rest1 =>
              rw [hp1] at hskip
              by_cases hc1 : c1 = padChar
              · subst hc1
                simp only [hp1, ne_eq, not_true_eq_false, if_false] at herr ⊢
                obtain ⟨hr, hdrop⟩ := finishPadded_sound _ _ _ herr
                rw [hr]
                have hlen1 : rest1.length < rest.length := by
                  have := hskip.1
                  simp at this
                  omega
                refine ⟨Nat.zero_le _, fun _ => Nat.succ_pos _, ?_⟩
                intro _
                rw [← hskip.2, dropNewlines_cons_keep padChar rest1 padChar_plain, hdrop]
                match pre, hlen.trans hd, hpre with
                | [x, y], _, hp =>
                  exact validStd_pad2 x y (hp x (by simp)) (hp y (by simp))
              · simp [hp1, hc1] at herr
          | 3, _ =>
            have hq : decodeQuantum (padChar :: rest) si dbuf =
                finishPadded rest (si + 1) dbuf := by
              simp [decodeQuantum, hA', hN, hd]
            rw [hq] at herr ⊢
            obtain ⟨hr, hdrop⟩ := finishPadded_sound _ _ _ herr
            rw [hr, hdrop]
            refine ⟨Nat.zero_le _, fun _ => Nat.succ_pos _, ?_⟩
            intro _
            match pre, hlen.trans hd, hpre with
            | [x, y, z], _, hp =>
              exact validStd_pad1 x y z (hp x (by simp)) (hp y (by simp)) (hp z (by simp))
          | n + 4, h => exact absurd h (by omega)
        · simp [decodeQuantum, hA', hN, hP] at herr

theorem decodeLoop_sound (fuel : Nat) :
    ∀ (s : List Char) (si : Nat) (acc : List Byte), s.length ≤ fuel →
      (decodeLoop fuel s si acc).2 = none → ValidStd (dropNewlines s) = true := by
  induction fuel with
  | zero =>
    intro s si acc hlen _
    have : s = [] := List.length_eq_zero.1 (Nat.le_zero.1 hlen)
    subst this
    rfl
  | succ fuel ih =>
    intro s si acc hlen h
    by_cases hs : s = []
    · subst hs; rfl
    · cases herr : (decodeQuantum s si []).err with
      | some e => simp [decodeLoop, hs, herr] at h
      | none =>
        obtain ⟨_, h2, h3⟩ := decodeQuantum_sound s si [] [] rfl (by simp) (by simp) herr
        rw [decodeLoop_step fuel si acc s _ hs rfl herr] at h
        have hv := ih _ _ _ (by have := h2 hs; omega) h
        simpa using h3 hv

theorem decodeString_rejects (s : String) (h : ValidStd (dropNewlines s.data) = false) :
    ∃ e, (DecodeString s).2 = some e := by
  cases hd : (DecodeString s).2 with
  | some e => exact ⟨e, rfl⟩
  | none =>
    have := decodeLoop_sound s.data.length s.data 0 [] (Nat.le_refl _) hd
    rw [this] at h
    exact absurd h (by simp)

/-- The fuel of `decodeLoop` never runs out: with at least `len(src)` rounds allowed,
more rounds change nothing. -/
theorem decodeLoop_fuel (fuel : Nat) :
    ∀ (s : List Char) (si : Nat) (acc : List Byte) (k : Nat), s.length ≤ fuel →
      decodeLoop (fuel + k) s si acc = decodeLoop fuel s si acc := by
  induction fuel with
  | zero =>
    intro s si acc k hlen
    have : s = [] := List.length_eq_zero.1 (Nat.le_zero.1 hlen)
    subst this
    simp [decodeLoop_nil]
  | succ fuel ih =>
    intro s si acc k hlen
    by_cases hs : s = []
    · subst hs; simp [decodeLoop_nil]
    · have hk : fuel + 1 + k = (fuel + k) + 1 := by omega
      rw [hk]
      cases herr : (decodeQuantum s si []).err with
      | some e => simp [decodeLoop, hs, herr]
      | none =>
        obtain ⟨_, h2, _⟩ := decodeQuantum_sound s si [] [] rfl (by simp) (by simp) herr
        rw [decodeLoop_step (fuel + k) si acc s _ hs rfl herr,
          decodeLoop_step fuel si acc s _ hs rfl herr]
        exact ih _ _ _ k (by have := h2 hs; omega)

theorem inAlphabet_padChar : inAlphabet padChar = false := by decide

theorem validStd_bad_char (c : Char) (hA : inAlphabet c = false) (hP : c ≠ padChar) :
    ∀ (pre t : List Char), pre.length ≤ 3 → ValidStd (pre ++ c :: t) = false := by
  intro pre t hlen
  match pre, hlen with
  | [], _ =>
    match t with
    | [] => rfl
    | [_] => rfl
    | [_, _] => rfl
    | _ :: _ :: _ :: _ => simp [ValidStd, hA]
  | [x], _ =>
    match t with
    | [] => rfl
    | [_] => rfl
    | _ :: _ :: _ => simp [ValidStd, hA]
  | [x, y], _ =>
    match t with
    | [] => rfl
    | _ :: _ => simp [ValidStd, hA, hP]
  | [x, y, z], _ => simp [ValidStd, hA, hP]

theorem validStd_early_pad (pre t : List Char) (hlen : pre.length ≤ 1) :
    ValidStd (pre ++ padChar :: t) = false := by
  match pre, hlen with
  | [], _ =>
    match t with
    | [] => rfl
    | [_] => rfl
    | [_, _] => rfl
    | _ :: _ :: _ :: _ => simp [ValidStd, inAlphabet_padChar]
  | [x], _ =>
    match t with
    | [] => rfl
    | [_] => rfl
    | _ :: _ :: _ => simp [ValidStd, inAlphabet_padChar]

theorem validStd_pad_at_two (x y : Char) (t : List Char)
    (h : ValidStd (x :: y :: padChar :: t) = true) : t = [padChar] := by
  match t with
  | [] => simp [ValidStd] at h
  | d :: t' =>
    simp only [ValidStd, inAlphabet_padChar, Bool.false_and, Bool.and_false, Bool.false_or,
      Bool.and_eq_true, List.isEmpty_iff, beq_iff_eq, Bool.or_false] at h
    obtain ⟨_, ⟨ht, _⟩, hd⟩ := h
    rw [ht, hd]

theorem validStd_pad_at_three (x y z : Char) (t : List Char)
    (h : ValidStd (x :: y :: z :: padChar :: t) = true) : t = [] := by
  have hpp : ¬ inAlphabet padChar = true := by simp [inAlphabet_padChar]
  simp only [ValidStd, Bool.and_eq_true, Bool.or_eq_true, List.isEmpty_iff, beq_iff_eq] at h
  rcases h.2 with (h1 | h1) | h1
  · exact absurd h1.1.2 hpp
  · exact h1.1.1
  · exact h1.1.1

theorem validStd_alpha_at_three (x y z c : Char) (t : List Char) (hc : inAlphabet c = true)
    (h : ValidStd (x :: y :: z :: c :: t) = true) : ValidStd t = true := by
  have hcp : c ≠ padChar := by
    intro h0
    rw [h0, inAlphabet_padChar] at hc
    exact absurd hc (by simp)
  simp only [ValidStd, Bool.and_eq_true, Bool.or_eq_true, List.isEmpty_iff, beq_iff_eq] at h
  rcases h.2 with (h1 | h1) | h1
  · exact h1.2
  · exact absurd h1.2 hcp
  · exact absurd h1.2 hcp

theorem skipNewlines_head (s : List Char) :
    ∀ (si : Nat) (c : Char) (t : List Char), (skipNewlines s si).1 = c :: t →
      ¬ (c = '\n' ∨ c = '\r') := by
  induction s with
  | nil => intro si c t h; simp [skipNewlines] at h
  | cons d s ih =>
    intro si c t h
    by_cases hd : d = '\n' ∨ d = '\r'
    · simp only [skipNewlines, hd, if_true] at h
      exact ih _ c t h
    · simp only [skipNewlines, hd, if_false, List.cons.injEq] at h
      rw [← h.1]
      exact hd

theorem skipNewlines_nil_of_drop (s : List Char) (si : Nat) (h : dropNewlines s = []) :
    (skipNewlines s si).1 = [] := by
  cases hp : (skipNewlines s si).1 with
  | nil => rfl
  | cons c t =>
    have hc := skipNewlines_head s si c t hp
    have hd := (skipNewlines_spec s si).2
    rw [hp, dropNewlines_cons_keep c t hc, h] at hd
    exact absurd hd (by simp)

theorem finishPadded_complete (rest : List Char) (si : Nat) (dbuf : List Nat)
    (h : dropNewlines rest = []) :
    (finishPadded rest si dbuf).err = none ∧ (finishPadded rest si dbuf).rest = [] := by
  have hs := skipNewlines_nil_of_drop rest si h
  simp [finishPadded, hs]

theorem decodeQuantum_complete (s : List Char) :
    ∀ (si : Nat) (dbuf : List Nat) (pre : List Char),
      pre.length = dbuf.length → dbuf.length ≤ 3 →
      ValidStd (pre ++ dropNewlines s) = true →
      (decodeQuantum s si dbuf).err = none ∧
      ValidStd (dropNewlines (decodeQuantum s si dbuf).rest) = true := by
  induction s with
  | nil =>
    intro si dbuf pre hlen hle hv
    have hpre : pre = [] := by
      match pre, hlen.trans_le hle with
      | [], _ => rfl
      | [_], _ => simp [dropNewlines, ValidStd] at hv
      | [_, _], _ => simp [dropNewlines, ValidStd] at hv
      | [_, _, _], _ => simp [dropNewlines, ValidStd] at hv
    subst hpre
    have h0 : dbuf.length = 0 := hlen.symm
    simp [decodeQuantum, h0, dropNewlines, ValidStd]
  | cons c rest ih =>
    intro si dbuf pre hlen hle hv
    have hprelen : pre.length ≤ 3 := hlen.trans_le hle
    by_cases hA : decodeMap c ≠ 0xff
    · have hcA : inAlphabet c = true := (decodeMap_ne_iff c).1 hA
      have hplain := (alphabet_plain c ((inAlphabet_iff c).1 hcA)).1
      rw [dropNewlines_cons_keep c rest hplain] at hv
      by_cases h3 : dbuf.length = 3
      · have hq : decodeQuantum (c :: rest) si dbuf =
            { rest := rest, nsi := si + 1, out := assemble (dbuf ++ [decodeMap c]) 4,
              err := none } := by
          simp [decodeQuantum, hA, h3]
        rw [hq]
        refine ⟨rfl, ?_⟩
        match pre, hlen.trans h3, hv with
        | [x, y, z], _, hv => exact validStd_alpha_at_three x y z c _ hcA hv
      · have hq : decodeQuantum (c :: rest) si dbuf =
            decodeQuantum rest (si + 1) (dbuf ++ [decodeMap c]) := by
          simp [decodeQuantum, hA, h3]
        rw [hq]
        exact ih (si + 1) (dbuf ++ [decodeMap c]) (pre ++ [c]) (by simp [hlen])
          (by simp; omega) (by simpa using hv)
    · have hA' : decodeMap c = 0xff := not_not.1 hA
      have hcA : inAlphabet c = false := by
        cases h : inAlphabet c
        · rfl
        · exact absurd ((decodeMap_ne_iff c).2 h) hA
      by_cases hN : c = '\n' ∨ c = '\r'
      · have hq : decodeQuantum (c :: rest) si dbuf = decodeQuantum rest (si + 1) dbuf := by
          simp [decodeQuantum, hA', hN]
        rw [hq]
        rw [dropNewlines_cons_skip c rest hN] at hv
        exact ih (si + 1) dbuf pre hlen hle hv
      · rw [dropNewlines_cons_keep c rest hN] at hv
        by_cases hP : c = padChar
        · subst hP
          match hd : dbuf.length, hle with
          | 0, _ =>
            rw [validStd_early_pad pre _ (by omega)] at hv
            exact absurd hv (by simp)
          | 1, _ =>
            rw [validStd_early_pad pre _ (by omega)] at hv
            exact absurd hv (by simp)
          | 2, _ =>
            have hq : decodeQuantum (padChar :: rest) si dbuf =
                (match (skipNewlines rest (si + 1)).1 with
                | [] => { rest := [], nsi := (skipNewlines rest (si + 1)).2, out := [],
                          err := some (skipNewlines rest (si + 1)).2 }
                | c1 :: rest1 =>
                  if c1 ≠ padChar then
                    { rest := c1 :: rest1, nsi := (skipNewlines rest (si + 1)).2, out := [],
                      err := some ((skipNewlines rest (si + 1)).2 - 1) }
                  else finishPadded rest1 ((skipNewlines rest (si + 1)).2 + 1) dbuf) := by
              simp [decodeQuantum, hA', hN, hd]
            rw [hq]
            have hrest : dropNewlines rest = [padChar] := by
              match pre, hlen.trans hd, hv with
              | [x, y], _, hv => exact validStd_pad_at_two x y _ hv
            have hskip := (skipNewlines_spec rest (si + 1)).2
            rw [hrest] at hskip
            cases hp1 : (skipNewlines rest (si + 1)).1 with
            | nil =>
              rw [hp1] at hskip
              exact absurd hskip (by simp [dropNewlines])
            | cons c1 rest1 =>
              have hc1 := skipNewlines_head rest (si + 1) c1 rest1 hp1
              rw [hp1, dropNewlines_cons_keep c1 rest1 hc1] at hskip
              simp only [List.cons.injEq] at hskip
              obtain ⟨h1, h2⟩ := hskip
              subst h1
              simp only [ne_eq, not_true_eq_false, if_false]
              obtain ⟨he, hr⟩ := finishPadded_complete rest1
                ((skipNewlines rest (si + 1)).2 + 1) dbuf h2
              rw [hr]
              exact ⟨he, rfl⟩
          | 3, _ =>
            have hq : decodeQuantum (padChar :: rest) si dbuf =
                finishPadded rest (si + 1) dbuf := by
              simp [decodeQuantum, hA', hN, hd]
            rw [hq]
            have hrest : dropNewlines rest = [] := by
              match pre, hlen.trans hd, hv with
              | [x, y, z], _, hv => exact validStd_pad_at_three x y z _ hv
            obtain ⟨he, hr⟩ := finishPadded_complete rest (si + 1) dbuf hrest
            rw [hr]
            exact ⟨he, rfl⟩
          | n + 4, h => exact absurd h (by omega)
        · rw [validStd_bad_char c hcA hP pre _ hprelen] at hv
          exact absurd hv (by simp)

theorem decodeLoop_complete (fuel : Nat) :
    ∀ (s : List Char) (si : Nat) (acc : List Byte), s.length ≤ fuel →
      ValidStd (dropNewlines s) = true → (decodeLoop fuel s si acc).2 = none := by
  induction fuel with
  | zero => intro s si acc _ _; rfl
  | succ fuel ih =>
    intro s si acc hlen hv
    by_cases hs : s = []
    · subst hs; rfl
    · obtain ⟨herr, hrest⟩ := decodeQuantum_complete s si [] [] rfl (by simp) (by simpa using hv)
      obtain ⟨_, h2, _⟩ := decodeQuantum_sound s si [] [] rfl (by simp) (by simp) herr
      rw [decodeLoop_step fuel si acc s _ hs rfl herr]
      exact ih _ _ _ (by have := h2 hs; omega) hrest

/-- The decoder of `StdEncoding` accepts exactly the inputs that are valid standard
padded base64 once their line feeds and carriage returns are dropped. -/
theorem decodeString_accepts_iff (s : String) :
    (DecodeString s).2 = none ↔ ValidStd (dropNewlines s.data) = true :=
  ⟨decodeLoop_sound s.data.length s.data 0 [] (Nat.le_refl _),
    decodeLoop_complete s.data.length s.data 0 [] (Nat.le_refl _)⟩

end b64

theorem string_length_ne_zero (s : String) (h : s ≠ "") : ¬ s.length = 0 := by
  intro h0
  apply h
  have : s.data = [] := List.length_eq_zero.1 h0
  cases s
  simp_all

theorem finishHandle_trace {P : Type} (env : Env P) (r : State P × Exit P) :
    (finishHandle env r).1.trace = r.1.trace := by
  unfold finishHandle
  split <;> rfl

theorem finishHandle_exit {P : Type} (env : Env P) (r : State P × Exit P) :
    (finishHandle env r).2 = Exit.returned := by
  unfold finishHandle
  split
  · rfl
  · next h => exact h

theorem deferredClose_trace {P : Type} (env : Env P) (r : State P × Exit P) :
    (deferredClose env r).1.trace = r.1.trace ++ [Event.close] := by
  unfold deferredClose
  cases env.fault Step.close with
  | some x => rfl
  | none =>
    simp only
    cases env.closeErr (r.1.record Event.close).trace <;> rfl

theorem useClient_trace {P : Type} (env : Env P) (body : Body) (b : List Byte) (st : State P) :
    ∃ ws ts, (useClient env body b st).1.trace =
        st.trace ++ Event.setImageFromBytes b :: (ws ++ ts) ∧
      (ws = [] ∨ ws = [Event.setWhitelist body.Whitelist]) ∧
      (ts = [] ∨ ts = [Event.text
        (if body.Languages = "" then ["eng"] else strings.Split body.Languages ',')]) := by
  unfold useClient
  by_cases hw : body.Whitelist = "" <;> by_cases hl : body.Languages = "" <;>
    cases h1 : env.fault Step.setImageFromBytes <;>
    cases h2 : env.fault Step.setWhitelist <;>
    cases h3 : env.fault Step.text <;>
    simp only [hw, hl, h1, h2, h3, State.record, ne_eq, not_true_eq_false, not_false_eq_true,
      if_true, if_false] <;>
    first
    | (refine ⟨[], [], ?_, Or.inl rfl, Or.inl rfl⟩; simp; done)
    | (refine ⟨[_], [], ?_, Or.inr rfl, Or.inl rfl⟩; simp; done)
    | (refine ⟨[], [_], ?_, Or.inl rfl, Or.inr rfl⟩; simp; done)
    | (refine ⟨[_], [_], ?_, Or.inr rfl, Or.inr rfl⟩; simp; done)
    | (refine ⟨[], [_], ?_, Or.inl rfl, Or.inr rfl⟩; split <;> simp; done)
    | (refine ⟨[_], [_], ?_, Or.inr rfl, Or.inr rfl⟩; split <;> simp)

theorem handle_session {P : Type} (env : Env P) (apikey : String)
    (r : Request) (b : Body) (img : List Byte) (st : State P)
    (hst : st = { w := { ResponseWriter.fresh with
                    header := [("Access-Control-Allow-Origin", ["*"]),
                      ("Content-Type", ["application/json"])] },
                  trace := [Event.newClient], log := [], bodyClosed := false })
    (hauth : Header.Get r.header "Diggernauth" = apikey)
    (hj0 : env.fault Step.jsonDecode = none)
    (hj : env.jsonDecode r.body = Except.ok b)
    (hne : b.Base64 ≠ "")
    (hb0 : env.fault Step.b64Decode = none)
    (hdec : b64.DecodeString b.Base64 = (img, none))
    (hn0 : env.fault Step.newClient = none) :
    handle env apikey r (State.init P ResponseWriter.fresh) =
      if b.PSM > 0 then
        match env.fault Step.setPageSegMode with
        | some x => (st.record (Event.setPageSegMode b.PSM), Exit.panicking x)
        | none => deferredClose env (useClient env b img (st.record (Event.setPageSegMode b.PSM)))
      else deferredClose env (useClient env b img st) := by
  have hlen := string_length_ne_zero _ hne
  subst hst
  simp only [handle, hauth, hj0, hj, hlen, hb0, hdec, hn0, ne_eq, not_true_eq_false,
    if_false]
  rfl

theorem useClient_text {P : Type} (env : Env P) (b : Body) (img : List Byte) (st : State P)
    (R : String)
    (hi0 : env.fault Step.setImageFromBytes = none)
    (hw0 : b.Whitelist ≠ "" → env.fault Step.setWhitelist = none)
    (ht0 : env.fault Step.text = none)
    (htext : env.text (st.trace ++ [Event.setImageFromBytes img] ++
      (if b.Whitelist ≠ "" then [Event.setWhitelist b.Whitelist] else []) ++
      [Event.text (if b.Languages ≠ "" then strings.Split b.Languages ',' else ["eng"])])
        = Except.ok R) :
    (useClient env b img st).1.w =
        (st.w.WriteHeader 200).Write
          (env.jsonMarshal [("status", "success"), ("result", strings.Trim R b.Trim)]) ∧
      (useClient env b img st).2 = Exit.returned := by
  unfold useClient
  by_cases hw : b.Whitelist = ""
  · simp only [hi0, ht0, hw, ne_eq, not_true_eq_false, if_false, State.record,
      List.append_assoc, List.singleton_append, List.cons_append, List.nil_append,
      List.append_nil] at htext ⊢
    simp only [htext]
    exact ⟨trivial, trivial⟩
  · simp only [hi0, ht0, hw0 hw, hw, ne_eq, not_false_eq_true, if_true, State.record,
      List.append_assoc, List.singleton_append, List.cons_append, List.nil_append] at htext ⊢
    simp only [htext]
    exact ⟨trivial, trivial⟩

theorem deferredClose_w {P : Type} (env : Env P) (r : State P × Exit P)
    (h : env.fault Step.close = none) :
    (deferredClose env r).1.w = r.1.w ∧ (deferredClose env r).2 = r.2 := by
  unfold deferredClose
  simp only [h]
  cases env.closeErr (r.1.record Event.close).trace <;> exact ⟨rfl, rfl⟩

theorem deferredClose_w_panic {P : Type} (env : Env P) (r : State P × Exit P) :
    (deferredClose env r).1.w = r.1.w := by
  unfold deferredClose
  cases env.fault Step.close with
  | some x => rfl
  | none =>
    simp only
    cases env.closeErr (r.1.record Event.close).trace <;> rfl

theorem finishHandle_sent {P : Type} (env : Env P) (r : State P × Exit P) (code : Nat)
    (data : String) (rest : List String)
    (hs : r.1.w.status = some code) (hb : r.1.w.body = data :: rest) :
    (finishHandle env r).1.w.status = some code ∧
      (finishHandle env r).1.w.body.head? = some data := by
  unfold finishHandle
  cases r.2 with
  | returned => simp [hs, hb]
  | panicking x =>
    simp [errorResponse, httpError, ResponseWriter.WriteHeader, ResponseWriter.Write, hs, hb]

/-- C6: when recognition succeeds with engine text `R`, the handler answers 200 and the
first thing it writes is the success envelope whose `result` is `strings.Trim R T`
for the `trim` field `T`; that result is `R` without a prefix and a suffix made of
characters of `T`, it neither starts nor ends with a character of `T` (so the
prefix and the suffix removed are the longest ones), and it is `R` itself when
`T` is empty. -/
theorem result_trimmed {P : Type} (env : Env P) (apikey : String) (r : Request) (b : Body)
    (img : List Byte) (R : String)
    (hauth : Header.Get r.header "Diggernauth" = apikey)
    (hj0 : env.fault Step.jsonDecode = none)
    (hj : env.jsonDecode r.body = Except.ok b)
    (hne : b.Base64 ≠ "")
    (hb0 : env.fault Step.b64Decode = none)
    (hdec : b64.DecodeString b.Base64 = (img, none))
    (hn0 : env.fault Step.newClient = none)
    (hp0 : b.PSM > 0 → env.fault Step.setPageSegMode = none)
    (hi0 : env.fault Step.setImageFromBytes = none)
    (hw0 : b.Whitelist ≠ "" → env.fault Step.setWhitelist = none)
    (ht0 : env.fault Step.text = none)
    (htext : env.text (engineCalls b img) = Except.ok R) :
    (base64 env apikey ResponseWriter.fresh r).1.w.status = some 200 ∧
    (base64 env apikey ResponseWriter.fresh r).1.w.body.head? =
      some (env.jsonMarshal [("status", "success"), ("result", strings.Trim R b.Trim)]) ∧
    (∃ p q, R.data = p ++ (strings.Trim R b.Trim).data ++ q ∧
      (∀ c ∈ p, c ∈ b.Trim.data) ∧ (∀ c ∈ q, c ∈ b.Trim.data) ∧
      (∀ c, (strings.Trim R b.Trim).data.head? = some c → c ∉ b.Trim.data) ∧
      (∀ c, (strings.Trim R b.Trim).data.getLast? = some c → c ∉ b.Trim.data)) ∧
    (b.Trim = "" → strings.Trim R b.Trim = R) := by
  have hses := handle_session env apikey r b img _ rfl hauth hj0 hj hne hb0 hdec hn0
  have key : ∀ st : State P, st.w.status = none → st.w.body = [] →
      env.text (st.trace ++ [Event.setImageFromBytes img] ++
        (if b.Whitelist ≠ "" then [Event.setWhitelist b.Whitelist] else []) ++
        [Event.text (if b.Languages ≠ "" then strings.Split b.Languages ',' else ["eng"])])
          = Except.ok R →
      (finishHandle env (deferredClose env (useClient env b img st))).1.w.status = some 200 ∧
      (finishHandle env (deferredClose env (useClient env b img st))).1.w.body.head? =
        some (env.jsonMarshal [("status", "success"), ("result", strings.Trim R b.Trim)]) := by
    intro st hs hbody ht
    obtain ⟨hw, _⟩ := useClient_text env b img st R hi0 hw0 ht0 ht
    apply finishHandle_sent env _ 200 _ []
    · rw [deferredClose_w_panic, hw]
      simp [ResponseWriter.WriteHeader, ResponseWriter.Write, hs]
    · rw [deferredClose_w_panic, hw]
      simp [ResponseWriter.WriteHeader, ResponseWriter.Write, hs, hbody]
  refine ⟨?_, ?_, ?_, ?_⟩
  · simp only [base64, hses]
    by_cases hp : b.PSM > 0
    · simp only [hp, if_true, hp0 hp]
      refine (key _ rfl rfl ?_).1
      simpa [engineCalls, hp, State.record] using htext
    · simp only [hp, if_false]
      refine (key _ rfl rfl ?_).1
      simpa [engineCalls, hp] using htext
  · simp only [base64, hses]
    by_cases hp : b.PSM > 0
    · simp only [hp, if_true, hp0 hp]
      refine (key _ rfl rfl ?_).2
      simpa [engineCalls, hp, State.record] using htext
    · simp only [hp, if_false]
      refine (key _ rfl rfl ?_).2
      simpa [engineCalls, hp] using htext
  · exact strings.trimRunes_spec R.data b.Trim.data
  · intro hT
    rw [hT]
    exact strings.trim_empty_cutset R

theorem useClient_trace_quiet {P : Type} (env : Env P) (b : Body) (img : List Byte)
    (st : State P)
    (hi0 : env.fault Step.setImageFromBytes = none)
    (hw0 : b.Whitelist ≠ "" → env.fault Step.setWhitelist = none) :
    (useClient env b img st).1.trace = st.trace ++ Event.setImageFromBytes img ::
      ((if b.Whitelist = "" then [] else [Event.setWhitelist b.Whitelist]) ++
        [Event.text (if b.Languages = "" then ["eng"] else strings.Split b.Languages ',')]) := by
  unfold useClient
  by_cases hw : b.Whitelist = "" <;> by_cases hl : b.Languages = "" <;>
    cases h3 : env.fault Step.text <;>
    simp only [hw, hl, hi0, h3, State.record, ne_eq, not_true_eq_false, not_false_eq_true,
      if_true, if_false] <;>
    first
    | (simp; done)
    | (split <;> simp; done)
    | (simp only [hw0 hw]; simp; done)
    | (simp only [hw0 hw]; split <;> simp)

theorem base64_trace {P : Type} (env : Env P) (apikey : String) (r : Request) (b : Body)
    (img : List Byte)
    (hauth : Header.Get r.header "Diggernauth" = apikey)
    (hj0 : env.fault Step.jsonDecode = none)
    (hj : env.jsonDecode r.body = Except.ok b)
    (hne : b.Base64 ≠ "")
    (hb0 : env.fault Step.b64Decode = none)
    (hdec : b64.DecodeString b.Base64 = (img, none))
    (hn0 : env.fault Step.newClient = none) :
    (base64 env apikey ResponseWriter.fresh r).1.trace =
      if b.PSM > 0 then
        match env.fault Step.setPageSegMode with
        | some _ => [Event.newClient, Event.setPageSegMode b.PSM]
        | none => (useClient env b img
            { w := { ResponseWriter.fresh with
                header := [("Access-Control-Allow-Origin", ["*"]),
                  ("Content-Type", ["application/json"])] },
              trace := [Event.newClient, Event.setPageSegMode b.PSM], log := [],
              bodyClosed := false }).1.trace ++ [Event.close]
      else (useClient env b img
            { w := { ResponseWriter.fresh with
                header := [("Access-Control-Allow-Origin", ["*"]),
                  ("Content-Type", ["application/json"])] },
              trace := [Event.newClient], log := [], bodyClosed := false }).1.trace ++
          [Event.close] := by
  have hses := handle_session env apikey r b img _ rfl hauth hj0 hj hne hb0 hdec hn0
  simp only [base64, hses, finishHandle_trace]
  by_cases hp : b.PSM > 0
  · simp only [hp, if_true]
    cases env.fault Step.setPageSegMode with
    | some x => rfl
    | none => simp only [deferredClose_trace]; rfl
  · simp only [hp, if_false, deferredClose_trace]

/-- C8: once the session has been created, a `psm` that is zero (omitted) or
negative leaves the page-segmentation setter uncalled, and a positive `psm` is
passed to the setter right after the session is created, once, and ahead of
every later engine call, the request for text among them. -/
theorem psm_applied {P : Type} (env : Env P) (apikey : String) (r : Request) (b : Body)
    (img : List Byte)
    (hauth : Header.Get r.header "Diggernauth" = apikey)
    (hj0 : env.fault Step.jsonDecode = none)
    (hj : env.jsonDecode r.body = Except.ok b)
    (hne : b.Base64 ≠ "")
    (hb0 : env.fault Step.b64Decode = none)
    (hdec : b64.DecodeString b.Base64 = (img, none))
    (hn0 : env.fault Step.newClient = none) :
    (b.PSM ≤ 0 → ∀ m, Event.setPageSegMode m ∉ (base64 env apikey ResponseWriter.fresh r).1.trace) ∧
    (0 < b.PSM → ∃ rest, (base64 env apikey ResponseWriter.fresh r).1.trace =
        Event.newClient :: Event.setPageSegMode b.PSM :: rest ∧
      ∀ m, Event.setPageSegMode m ∉ rest) := by
  rw [base64_trace env apikey r b img hauth hj0 hj hne hb0 hdec hn0]
  constructor
  · intro hp m
    have hp' : ¬ b.PSM > 0 := by omega
    simp only [hp', if_false]
    obtain ⟨ws, ts, h, hws, hts⟩ := useClient_trace env b img
      { w := { ResponseWriter.fresh with
          header := [("Access-Control-Allow-Origin", ["*"]),
            ("Content-Type", ["application/json"])] },
        trace := [Event.newClient], log := [], bodyClosed := false }
    rw [h]
    rcases hws with rfl | rfl <;> rcases hts with rfl | rfl <;> simp
  · intro hp
    have hp' : b.PSM > 0 := hp
    simp only [hp', if_true]
    cases env.fault Step.setPageSegMode with
    | some x => exact ⟨[], rfl, by simp⟩
    | none =>
      obtain ⟨ws, ts, h, hws, hts⟩ := useClient_trace env b img
        { w := { ResponseWriter.fresh with
            header := [("Access-Control-Allow-Origin", ["*"]),
              ("Content-Type", ["application/json"])] },
          trace := [Event.newClient, Event.setPageSegMode b.PSM], log := [],
          bodyClosed := false }
      simp only [h]
      refine ⟨Event.setImageFromBytes img :: (ws ++ ts) ++ [Event.close], by simp, ?_⟩
      intro m
      rcases hws with rfl | rfl <;> rcases hts with rfl | rfl <;> simp

/-- C7: when no call before recognition panics, text is requested exactly once, with
the language list `["eng"]` for an empty `languages` field and with
`strings.Split(languages, ",")` otherwise; the pieces of the split contain no
comma, empty and blank pieces are kept (joining the pieces with commas gives the
field back), and `"eng,fra"` gives `["eng", "fra"]`. -/
theorem languages_configured {P : Type} (env : Env P) (apikey : String) (r : Request)
    (b : Body) (img : List Byte)
    (hauth : Header.Get r.header "Diggernauth" = apikey)
    (hj0 : env.fault Step.jsonDecode = none)
    (hj : env.jsonDecode r.body = Except.ok b)
    (hne : b.Base64 ≠ "")
    (hb0 : env.fault Step.b64Decode = none)
    (hdec : b64.DecodeString b.Base64 = (img, none))
    (hn0 : env.fault Step.newClient = none)
    (hp0 : b.PSM > 0 → env.fault Step.setPageSegMode = none)
    (hi0 : env.fault Step.setImageFromBytes = none)
    (hw0 : b.Whitelist ≠ "" → env.fault Step.setWhitelist = none) :
    (∃ before after, (base64 env apikey ResponseWriter.fresh r).1.trace =
        before ++ Event.text (if b.Languages = "" then ["eng"]
          else strings.Split b.Languages ',') :: after ∧
      ∀ l, Event.text l ∉ before ++ after) ∧
    (∀ p ∈ strings.Split b.Languages ',', ',' ∉ p.data) ∧
    strings.Join (strings.Split b.Languages ',') ',' = b.Languages ∧
    strings.Split "eng,fra" ',' = ["eng", "fra"] ∧
    strings.Split "eng,, fra," ',' = ["eng", "", " fra", ""] := by
  refine ⟨?_, strings.split_pieces _ _, strings.join_split _ _, by decide, by decide⟩
  rw [base64_trace env apikey r b img hauth hj0 hj hne hb0 hdec hn0]
  by_cases hp : b.PSM > 0
  · simp only [hp, if_true, hp0 hp, useClient_trace_quiet env b img _ hi0 hw0]
    refine ⟨Event.newClient :: Event.setPageSegMode b.PSM :: Event.setImageFromBytes img ::
      (if b.Whitelist = "" then [] else [Event.setWhitelist b.Whitelist]), [Event.close],
      by simp, ?_⟩
    intro l
    by_cases hw : b.Whitelist = "" <;> simp [hw]
  · simp only [hp, if_false, useClient_trace_quiet env b img _ hi0 hw0]
    refine ⟨Event.newClient :: Event.setImageFromBytes img ::
      (if b.Whitelist = "" then [] else [Event.setWhitelist b.Whitelist]), [Event.close],
      by simp, ?_⟩
    intro l
    by_cases hw : b.Whitelist = "" <;> simp [hw]

theorem encodeToString_ne (B : List Byte) (h : B ≠ []) : b64.EncodeToString B ≠ "" := by
  intro h0
  have h1 : b64.EncodeRunes B = [] := by
    have := congrArg String.data h0
    simpa [b64.EncodeToString] using this
  match B, h with
  | [a], _ => simp [b64.EncodeRunes] at h1
  | [a, b], _ => simp [b64.EncodeRunes] at h1
  | a :: b :: c :: rest, _ => simp [b64.EncodeRunes] at h1

/-- C9: when the `base64` field is the standard padded encoding of a non-empty byte
sequence `B`, decoding succeeds with exactly `B`, and the image handed to the
session (the one and only `SetImageFromBytes` call) is `B`. -/
theorem decoded_image_roundtrip {P : Type} (env : Env P) (apikey : String) (r : Request)
    (b : Body) (B : List Byte)
    (hauth : Header.Get r.header "Diggernauth" = apikey)
    (hj0 : env.fault Step.jsonDecode = none)
    (hj : env.jsonDecode r.body = Except.ok b)
    (hB : b.Base64 = b64.EncodeToString B)
    (hBne : B ≠ [])
    (hb0 : env.fault Step.b64Decode = none)
    (hn0 : env.fault Step.newClient = none)
    (hp0 : b.PSM > 0 → env.fault Step.setPageSegMode = none) :
    b64.DecodeString b.Base64 = (B, none) ∧
    Event.setImageFromBytes B ∈ (base64 env apikey ResponseWriter.fresh r).1.trace ∧
    ∀ B', Event.setImageFromBytes B' ∈ (base64 env apikey ResponseWriter.fresh r).1.trace →
      B' = B := by
  have hdec : b64.DecodeString b.Base64 = (B, none) := by
    rw [hB]; exact b64.decodeString_encodeToString B
  have hne : b.Base64 ≠ "" := by
    rw [hB]; exact encodeToString_ne B hBne
  refine ⟨hdec, ?_⟩
  rw [base64_trace env apikey r b B hauth hj0 hj hne hb0 hdec hn0]
  by_cases hp : b.PSM > 0
  · simp only [hp, if_true, hp0 hp]
    obtain ⟨ws, ts, h, hws, hts⟩ := useClient_trace env b B
      { w := { ResponseWriter.fresh with
          header := [("Access-Control-Allow-Origin", ["*"]),
            ("Content-Type", ["application/json"])] },
        trace := [Event.newClient, Event.setPageSegMode b.PSM], log := [],
        bodyClosed := false }
    rw [h]
    rcases hws with rfl | rfl <;> rcases hts with rfl | rfl <;> simp
  · simp only [hp, if_false]
    obtain ⟨ws, ts, h, hws, hts⟩ := useClient_trace env b B
      { w := { ResponseWriter.fresh with
          header := [("Access-Control-Allow-Origin", ["*"]),
            ("Content-Type", ["application/json"])] },
        trace := [Event.newClient], log := [], bodyClosed := false }
    rw [h]
    rcases hws with rfl | rfl <;> rcases hts with rfl | rfl <;> simp

/-- The handler never lets a panic out: whatever happens inside, `finishHandle`
recovers and the handler returns. -/
theorem base64_returns {P : Type} (env : Env P) (apikey : String) (w : ResponseWriter)
    (r : Request) : (base64 env apikey w r).2 = Exit.returned := by
  simp only [base64, finishHandle_exit]

theorem useClient_panic_unsent {P : Type} (env : Env P) (b : Body) (img : List Byte)
    (st : State P) (x : P) (h : (useClient env b img st).2 = Exit.panicking x) :
    (useClient env b img st).1.w = st.w := by
  unfold useClient at h ⊢
  by_cases hw : b.Whitelist = "" <;>
    cases h1 : env.fault Step.setImageFromBytes <;>
    cases h2 : env.fault Step.setWhitelist <;>
    cases h3 : env.fault Step.text <;>
    simp only [hw, h1, h2, h3, State.record, ne_eq, not_true_eq_false, not_false_eq_true,
      if_true, if_false] at h ⊢ <;>
    first
    | rfl
    | (split at h <;> simp at h)

theorem handle_panic_unsent {P : Type} (env : Env P) (apikey : String) (r : Request) (x : P)
    (hc0 : env.fault Step.close = none)
    (h : (handle env apikey r (State.init P ResponseWriter.fresh)).2 = Exit.panicking x) :
    (handle env apikey r (State.init P ResponseWriter.fresh)).1.w =
      { ResponseWriter.fresh with
        header := [("Access-Control-Allow-Origin", ["*"]),
          ("Content-Type", ["application/json"])] } := by
  by_cases hauth : Header.Get r.header "Diggernauth" = apikey
  swap
  · simp [handle, hauth] at h
  cases hj0 : env.fault Step.jsonDecode with
  | some y =>
    simp only [handle, hauth, hj0, ne_eq, not_true_eq_false, if_false]
    rfl
  | none =>
  cases hj : env.jsonDecode r.body with
  | error e => simp [handle, hauth, hj0, hj] at h
  | ok b =>
  by_cases hlen : b.Base64.length = 0
  · simp [handle, hauth, hj0, hj, hlen] at h
  cases hb0 : env.fault Step.b64Decode with
  | some y =>
    simp only [handle, hauth, hj0, hj, hlen, hb0, ne_eq, not_true_eq_false, if_false]
    rfl
  | none =>
  cases hd : b64.DecodeString b.Base64 with
  | mk img err =>
  cases err with
  | some e => simp [handle, hauth, hj0, hj, hlen, hb0, hd] at h
  | none =>
  cases hn0 : env.fault Step.newClient with
  | some y =>
    simp only [handle, hauth, hj0, hj, hlen, hb0, hd, hn0, ne_eq, not_true_eq_false, if_false]
    rfl
  | none =>
  have hne : b.Base64 ≠ "" := by
    intro h0
    rw [h0] at hlen
    exact hlen rfl
  have hses := handle_session env apikey r b img _ rfl hauth hj0 hj hne hb0 hd hn0
  rw [hses] at h ⊢
  by_cases hp : b.PSM > 0
  · simp only [hp, if_true] at h ⊢
    cases hp0 : env.fault Step.setPageSegMode with
    | some y => rfl
    | none =>
      simp only [hp0] at h ⊢
      rw [(deferredClose_w env _ hc0).2] at h
      rw [(deferredClose_w env _ hc0).1, useClient_panic_unsent env _ _ _ x h]
      rfl
  · simp only [hp, if_false] at h ⊢
    rw [(deferredClose_w env _ hc0).2] at h
    rw [(deferredClose_w env _ hc0).1, useClient_panic_unsent env _ _ _ x h]

/-- The part of C2 the code keeps: when `Close` does not panic and the body of the
handler is left with a panic `x` in flight (raised in JSON parsing, base64
decoding, session creation or configuration, image loading or recognition),
nothing has been sent yet, and the handler answers exactly once, with 500 and the
failure envelope carrying `cast.ToString(x)`. -/
theorem panic_answered_once {P : Type} (env : Env P) (apikey : String) (r : Request) (x : P)
    (hc0 : env.fault Step.close = none)
    (h : (handle env apikey r (State.init P ResponseWriter.fresh)).2 = Exit.panicking x) :
    (base64 env apikey ResponseWriter.fresh r).1.w.status = some 500 ∧
    (base64 env apikey ResponseWriter.fresh r).1.w.body =
      [env.jsonMarshal [("status", "failure"), ("error", env.castToString x)] ++ "\n"] ∧
    (base64 env apikey ResponseWriter.fresh r).1.w.superfluous = 0 ∧
    (base64 env apikey ResponseWriter.fresh r).2 = Exit.returned := by
  have hw := handle_panic_unsent env apikey r x hc0 h
  simp only [base64, finishHandle, h, hw]
  simp [errorResponse, httpError, ResponseWriter.WriteHeader, ResponseWriter.Write,
    ResponseWriter.fresh]

/-- The part of C10 the code keeps, first half: once the session is created and
`SetPageSegMode` (if it is called at all) has returned, `Close` is called exactly
once, as the last engine call, however the code in between is left. -/
theorem close_called_once {P : Type} (env : Env P) (apikey : String) (r : Request) (b : Body)
    (img : List Byte)
    (hauth : Header.Get r.header "Diggernauth" = apikey)
    (hj0 : env.fault Step.jsonDecode = none)
    (hj : env.jsonDecode r.body = Except.ok b)
    (hne : b.Base64 ≠ "")
    (hb0 : env.fault Step.b64Decode = none)
    (hdec : b64.DecodeString b.Base64 = (img, none))
    (hn0 : env.fault Step.newClient = none)
    (hp0 : b.PSM > 0 → env.fault Step.setPageSegMode = none) :
    ∃ before, (base64 env apikey ResponseWriter.fresh r).1.trace = before ++ [Event.close] ∧
      Event.close ∉ before := by
  rw [base64_trace env apikey r b img hauth hj0 hj hne hb0 hdec hn0]
  by_cases hp : b.PSM > 0
  · simp only [hp, if_true, hp0 hp]
    obtain ⟨ws, ts, h, hws, hts⟩ := useClient_trace env b img
      { w := { ResponseWriter.fresh with
          header := [("Access-Control-Allow-Origin", ["*"]),
            ("Content-Type", ["application/json"])] },
        trace := [Event.newClient, Event.setPageSegMode b.PSM], log := [],
        bodyClosed := false }
    refine ⟨_, rfl, ?_⟩
    rw [h]
    rcases hws with rfl | rfl <;> rcases hts with rfl | rfl <;> simp
  · simp only [hp, if_false]
    obtain ⟨ws, ts, h, hws, hts⟩ := useClient_trace env b img
      { w := { ResponseWriter.fresh with
          header := [("Access-Control-Allow-Origin", ["*"]),
            ("Content-Type", ["application/json"])] },
        trace := [Event.newClient], log := [], bodyClosed := false }
    refine ⟨_, rfl, ?_⟩
    rw [h]
    rcases hws with rfl | rfl <;> rcases hts with rfl | rfl <;> simp

theorem deferredClose_closeErr {P : Type} (env : Env P) (f : List Event → Option String)
    (r : State P × Exit P) :
    (deferredClose { env with closeErr := f } r).1.w = (deferredClose env r).1.w ∧
    (deferredClose { env with closeErr := f } r).1.trace = (deferredClose env r).1.trace ∧
    (deferredClose { env with closeErr := f } r).2 = (deferredClose env r).2 := by
  unfold deferredClose
  cases h : env.fault Step.close with
  | some x => simp [h]
  | none =>
    simp only [h]
    cases f (r.1.record Event.close).trace <;>
      cases env.closeErr (r.1.record Event.close).trace <;> simp

theorem finishHandle_closeErr {P : Type} (env : Env P) (f : List Event → Option String)
    (r1 r2 : State P × Exit P) (hw : r1.1.w = r2.1.w) (ht : r1.1.trace = r2.1.trace)
    (he : r1.2 = r2.2) :
    (finishHandle { env with closeErr := f } r1).1.w = (finishHandle env r2).1.w ∧
    (finishHandle { env with closeErr := f } r1).1.trace = (finishHandle env r2).1.trace ∧
    (finishHandle { env with closeErr := f } r1).2 = (finishHandle env r2).2 := by
  unfold finishHandle
  rw [he]
  cases r2.2 with
  | returned => exact ⟨hw, ht, he⟩
  | panicking x =>
    refine ⟨?_, ht, rfl⟩
    simp only [hw]
    rfl

theorem handle_closeErr {P : Type} (env : Env P) (f : List Event → Option String)
    (apikey : String) (r : Request) (st : State P) :
    (handle { env with closeErr := f } apikey r st).1.w = (handle env apikey r st).1.w ∧
    (handle { env with closeErr := f } apikey r st).1.trace = (handle env apikey r st).1.trace ∧
    (handle { env with closeErr := f } apikey r st).2 = (handle env apikey r st).2 := by
  unfold handle
  simp only
  split
  · exact ⟨rfl, rfl, rfl⟩
  · split
    · exact ⟨rfl, rfl, rfl⟩
    · split
      · exact ⟨rfl, rfl, rfl⟩
      · split
        · exact ⟨rfl, rfl, rfl⟩
        · split
          · exact ⟨rfl, rfl, rfl⟩
          · split
            · exact ⟨rfl, rfl, rfl⟩
            · split
              · exact ⟨rfl, rfl, rfl⟩
              · split
                · split
                  · exact ⟨rfl, rfl, rfl⟩
                  · exact deferredClose_closeErr env f _
                · exact deferredClose_closeErr env f _

/-- The part of C10 the code keeps, second half: an error returned by `Close` is only
logged.  Replacing the answer of `Close` by any other leaves the response (status,
headers, body), the engine calls and the way the handler returns unchanged. -/
theorem close_error_only_logged {P : Type} (env : Env P) (f : List Event → Option String)
    (apikey : String) (w : ResponseWriter) (r : Request) :
    (base64 { env with closeErr := f } apikey w r).1.w = (base64 env apikey w r).1.w ∧
    (base64 { env with closeErr := f } apikey w r).1.trace = (base64 env apikey w r).1.trace ∧
    (base64 { env with closeErr := f } apikey w r).2 = (base64 env apikey w r).2 := by
  obtain ⟨h1, h2, h3⟩ := handle_closeErr env f apikey r (State.init P w)
  exact finishHandle_closeErr env f _ _ h1 h2 h3

theorem finishHandle_status {P : Type} (env : Env P) (r : State P × Exit P) (code : Nat)
    (hs : r.1.w.status = some code) :
    (finishHandle env r).1.w.status = some code := by
  unfold finishHandle
  cases r.2 with
  | returned => exact hs
  | panicking x =>
    simp [errorResponse, httpError, ResponseWriter.WriteHeader, ResponseWriter.Write, hs]

theorem finishHandle_sentHeader {P : Type} (env : Env P) (r : State P × Exit P) (code : Nat)
    (hs : r.1.w.status = some code) :
    (finishHandle env r).1.w.sentHeader = r.1.w.sentHeader := by
  unfold finishHandle
  cases r.2 with
  | returned => rfl
  | panicking x =>
    simp [errorResponse, httpError, ResponseWriter.WriteHeader, ResponseWriter.Write, hs]

/-- The part of C5 the code keeps: the 200 success response is sent with
`Content-Type: application/json` and `Access-Control-Allow-Origin: *`. -/
theorem success_headers {P : Type} (env : Env P) (apikey : String) (r : Request) (b : Body)
    (img : List Byte) (R : String)
    (hauth : Header.Get r.header "Diggernauth" = apikey)
    (hj0 : env.fault Step.jsonDecode = none)
    (hj : env.jsonDecode r.body = Except.ok b)
    (hne : b.Base64 ≠ "")
    (hb0 : env.fault Step.b64Decode = none)
    (hdec : b64.DecodeString b.Base64 = (img, none))
    (hn0 : env.fault Step.newClient = none)
    (hp0 : b.PSM > 0 → env.fault Step.setPageSegMode = none)
    (hi0 : env.fault Step.setImageFromBytes = none)
    (hw0 : b.Whitelist ≠ "" → env.fault Step.setWhitelist = none)
    (ht0 : env.fault Step.text = none)
    (htext : env.text (engineCalls b img) = Except.ok R) :
    (base64 env apikey ResponseWriter.fresh r).1.w.status = some 200 ∧
    Header.Get (base64 env apikey ResponseWriter.fresh r).1.w.sentHeader "Content-Type" =
      "application/json" ∧
    Header.Get (base64 env apikey ResponseWriter.fresh r).1.w.sentHeader
      "Access-Control-Allow-Origin" = "*" := by
  have hses := handle_session env apikey r b img _ rfl hauth hj0 hj hne hb0 hdec hn0
  have key : ∀ st : State P, st.w.status = none →
      st.w.header = [("Access-Control-Allow-Origin", ["*"]),
        ("Content-Type", ["application/json"])] →
      env.text (st.trace ++ [Event.setImageFromBytes img] ++
        (if b.Whitelist ≠ "" then [Event.setWhitelist b.Whitelist] else []) ++
        [Event.text (if b.Languages ≠ "" then strings.Split b.Languages ',' else ["eng"])])
          = Except.ok R →
      (finishHandle env (deferredClose env (useClient env b img st))).1.w.status = some 200 ∧
      (finishHandle env (deferredClose env (useClient env b img st))).1.w.sentHeader =
        [("Access-Control-Allow-Origin", ["*"]), ("Content-Type", ["application/json"])] := by
    intro st hs hh ht
    obtain ⟨hw, _⟩ := useClient_text env b img st R hi0 hw0 ht0 ht
    have hst : (deferredClose env (useClient env b img st)).1.w.status = some 200 := by
      rw [deferredClose_w_panic, hw]
      simp [ResponseWriter.WriteHeader, ResponseWriter.Write, hs]
    refine ⟨finishHandle_status env _ 200 hst, ?_⟩
    · rw [finishHandle_sentHeader env _ 200 hst, deferredClose_w_panic, hw]
      simp [ResponseWriter.WriteHeader, ResponseWriter.Write, hs, hh]
  have hboth : (base64 env apikey ResponseWriter.fresh r).1.w.status = some 200 ∧
      (base64 env apikey ResponseWriter.fresh r).1.w.sentHeader =
        [("Access-Control-Allow-Origin", ["*"]), ("Content-Type", ["application/json"])] := by
    simp only [base64, hses]
    by_cases hp : b.PSM > 0
    · simp only [hp, if_true, hp0 hp]
      refine key _ rfl rfl ?_
      simpa [engineCalls, hp, State.record] using htext
    · simp only [hp, if_false]
      refine key _ rfl rfl ?_
      simpa [engineCalls, hp] using htext
  refine ⟨hboth.1, ?_, ?_⟩
  · rw [hboth.2]; rfl
  · rw [hboth.2]; rfl

/-- What the handler does with a body `Decode` reports an error for, be it no JSON at
all or JSON with a value of the wrong type: 400 with the failure envelope
carrying the decoder's error text, written once, no engine call; the `base64`
field is not looked at. -/
theorem json_error_rejected {P : Type} (env : Env P) (apikey : String) (r : Request)
    (e : DecodeError)
    (hauth : Header.Get r.header "Diggernauth" = apikey)
    (hj0 : env.fault Step.jsonDecode = none)
    (hj : env.jsonDecode r.body = Except.error e) :
    (base64 env apikey ResponseWriter.fresh r).1.w.status = some 400 ∧
    (base64 env apikey ResponseWriter.fresh r).1.w.body =
      [env.jsonMarshal [("status", "failure"), ("error", e.Error)] ++ "\n"] ∧
    (base64 env apikey ResponseWriter.fresh r).1.w.superfluous = 0 ∧
    (base64 env apikey ResponseWriter.fresh r).1.trace = [] ∧
    (base64 env apikey ResponseWriter.fresh r).2 = Exit.returned := by
  simp [base64, handle, finishHandle, errorResponse, httpError, State.init,
    ResponseWriter.fresh, ResponseWriter.WriteHeader, ResponseWriter.Write, hauth, hj0, hj]

/-- An instance of `panic_answered_once`: `client.Text()` panics with `boom`. -/
theorem panic_answered_once_text :
    (base64 (double (faultAt Step.text "boom") (Except.ok (fields "aGk=" 3)) (Except.ok "hi")
        none) "key" ResponseWriter.fresh (post "key")).1.w.status = some 500 ∧
    (base64 (double (faultAt Step.text "boom") (Except.ok (fields "aGk=" 3)) (Except.ok "hi")
        none) "key" ResponseWriter.fresh (post "key")).1.w.body =
      [(double (faultAt Step.text "boom") (Except.ok (fields "aGk=" 3)) (Except.ok "hi")
        none).jsonMarshal [("status", "failure"),
          ("error", (double (faultAt Step.text "boom") (Except.ok (fields "aGk=" 3))
            (Except.ok "hi") none).castToString "boom")] ++ "\n"] ∧
    (base64 (double (faultAt Step.text "boom") (Except.ok (fields "aGk=" 3)) (Except.ok "hi")
        none) "key" ResponseWriter.fresh (post "key")).1.w.superfluous = 0 ∧
    (base64 (double (faultAt Step.text "boom") (Except.ok (fields "aGk=" 3)) (Except.ok "hi")
        none) "key" ResponseWriter.fresh (post "key")).2 = Exit.returned :=
  panic_answered_once
    (double (faultAt Step.text "boom") (Except.ok (fields "aGk=" 3)) (Except.ok "hi") none)
    "key" (post "key") "boom" rfl (by decide)

/-- An instance of `close_called_once`: the run `happy`, where the engine calls are
`NewClient`, `SetPageSegMode(3)`, `SetImageFromBytes`, `Text`, `Close`. -/
theorem close_called_once_happy :
    (base64 happy "key" ResponseWriter.fresh (post "key")).1.trace =
      [Event.newClient, Event.setPageSegMode 3, Event.setImageFromBytes [104, 105],
        Event.text ["eng", "fra"], Event.close] ∧
    ∃ before, (base64 happy "key" ResponseWriter.fresh (post "key")).1.trace =
        before ++ [Event.close] ∧ Event.close ∉ before :=
  ⟨by decide,
    close_called_once happy "key" (post "key") (fields "aGk=" 3) [104, 105]
      rfl rfl rfl (by decide) rfl (by decide) rfl (fun _ => rfl)⟩

/-- An instance of `success_headers`: the run `happy`. -/
theorem success_headers_happy :
    (base64 happy "key" ResponseWriter.fresh (post "key")).1.w.status = some 200 ∧
    Header.Get (base64 happy "key" ResponseWriter.fresh (post "key")).1.w.sentHeader
      "Content-Type" = "application/json" ∧
    Header.Get (base64 happy "key" ResponseWriter.fresh (post "key")).1.w.sentHeader
      "Access-Control-Allow-Origin" = "*" :=
  success_headers happy "key" (post "key") (fields "aGk=" 3) [104, 105] " xhi x"
    rfl rfl rfl (by decide) rfl (by decide) rfl (fun _ => rfl) rfl (fun _ => rfl) rfl rfl

/-- C1: a request whose `Diggernauth` value (empty when the header is missing) differs
from the API key is answered with 403 and the failure envelope carrying
`Invalid API key`, written once; the body is never looked at, no engine call is
made (no session is created), and the handler returns normally. -/
theorem invalid_key_forbidden {P : Type} (env : Env P) (apikey : String) (r : Request)
    (h : Header.Get r.header "Diggernauth" ≠ apikey) :
    (base64 env apikey ResponseWriter.fresh r).1.w.status = some 403 ∧
    (base64 env apikey ResponseWriter.fresh r).1.w.body =
      [env.jsonMarshal [("status", "failure"), ("error", "Invalid API key")] ++ "\n"] ∧
    (base64 env apikey ResponseWriter.fresh r).1.w.superfluous = 0 ∧
    (base64 env apikey ResponseWriter.fresh r).1.trace = [] ∧
    (base64 env apikey ResponseWriter.fresh r).2 = Exit.returned := by
  simp [base64, handle, finishHandle, errorResponse, httpError, State.init,
    ResponseWriter.fresh, ResponseWriter.WriteHeader, ResponseWriter.Write, h]

/-- Witness for C1: a request without the header, against the key `key`. -/
theorem invalid_key_forbidden_witness :
    Header.Get anonymous.header "Diggernauth" ≠ "key" ∧
    ((base64 (double noFault (Except.error "unexpected EOF") (Except.ok "hi") none) "key"
        ResponseWriter.fresh anonymous).1.w.status = some 403 ∧
      (base64 (double noFault (Except.error "unexpected EOF") (Except.ok "hi") none) "key"
        ResponseWriter.fresh anonymous).1.w.body =
        [(double noFault (Except.error "unexpected EOF") (Except.ok "hi") none).jsonMarshal
          [("status", "failure"), ("error", "Invalid API key")] ++ "\n"] ∧
      (base64 (double noFault (Except.error "unexpected EOF") (Except.ok "hi") none) "key"
        ResponseWriter.fresh anonymous).1.w.superfluous = 0 ∧
      (base64 (double noFault (Except.error "unexpected EOF") (Except.ok "hi") none) "key"
        ResponseWriter.fresh anonymous).1.trace = [] ∧
      (base64 (double noFault (Except.error "unexpected EOF") (Except.ok "hi") none) "key"
        ResponseWriter.fresh anonymous).2 = Exit.returned) :=
  ⟨by decide,
    invalid_key_forbidden (double noFault (Except.error "unexpected EOF") (Except.ok "hi") none)
      "key" anonymous (by decide)⟩

/-- C2, evaluated where it fails: recognition succeeds and `client.Close()` then
panics with `boom`.  The 200 status and the success envelope are already sent;
`finishHandle` recovers, its `WriteHeader(500)` is dropped as superfluous and the
failure envelope is appended to the body: status 200, two envelopes. -/
theorem release_panic_after_success :
    Header.Get (post "key").header "Diggernauth" = "key" ∧
    b64.DecodeString (fields "aGk=" 0).Base64 = ([104, 105], none) ∧
    (base64 (double (faultAt Step.close "boom") (Except.ok (fields "aGk=" 0))
        (Except.ok "hi") none) "key" ResponseWriter.fresh (post "key")).1.w.status = some 200 ∧
    (base64 (double (faultAt Step.close "boom") (Except.ok (fields "aGk=" 0))
        (Except.ok "hi") none) "key" ResponseWriter.fresh (post "key")).1.w.body =
      ["status=success;result=hi", "status=failure;error=boom\n"] ∧
    (base64 (double (faultAt Step.close "boom") (Except.ok (fields "aGk=" 0))
        (Except.ok "hi") none) "key" ResponseWriter.fresh (post "key")).1.w.superfluous = 1 ∧
    (base64 (double (faultAt Step.close "boom") (Except.ok (fields "aGk=" 0))
        (Except.ok "hi") none) "key" ResponseWriter.fresh (post "key")).2 = Exit.returned := by
  decide

/-- C3 as stated fails: the body of `numberForTrim` is JSON and its `base64` field is
empty, but `trim` holds a number; `Decode` returns an `UnmarshalTypeError`, the
handler answers on lines 83-86 with that error's text, and line 88 with
`base64 string required` is never reached. -/
theorem number_for_trim_json_error :
    Header.Get (postBody "key" numberForTrim).header "Diggernauth" = "key" ∧
    parsedFields ((doubleWith noFault numberForTrimDecoded (Except.ok "hi") none).jsonDecode
      (postBody "key" numberForTrim).body) = some zeroFields ∧
    zeroFields.Base64 = "" ∧
    (base64 (doubleWith noFault numberForTrimDecoded (Except.ok "hi") none) "key"
        ResponseWriter.fresh (postBody "key" numberForTrim)).1.w.status = some 400 ∧
    (base64 (doubleWith noFault numberForTrimDecoded (Except.ok "hi") none) "key"
        ResponseWriter.fresh (postBody "key" numberForTrim)).1.w.body =
      [(doubleWith noFault numberForTrimDecoded (Except.ok "hi") none).jsonMarshal
        [("status", "failure"),
          ("error", "json: cannot unmarshal number into Go struct field .trim of type string")]
        ++ "\n"] ∧
    (base64 (doubleWith noFault numberForTrimDecoded (Except.ok "hi") none) "key"
        ResponseWriter.fresh (postBody "key" numberForTrim)).1.w.body ≠
      [(doubleWith noFault numberForTrimDecoded (Except.ok "hi") none).jsonMarshal
        [("status", "failure"), ("error", "base64 string required")] ++ "\n"] := by
  decide

/-- C3, amended: an authenticated request whose body `Decode` decodes into the struct
without error (it is JSON and every field present has the type of its struct
field) and whose `base64` field is empty (or absent, which leaves the empty
string), whatever the values of the other fields, is answered with 400 and the
failure envelope carrying exactly `base64 string required`, written once, and no
engine call is made. -/
theorem empty_base64_rejected {P : Type} (env : Env P) (apikey : String) (r : Request)
    (b : Body)
    (hauth : Header.Get r.header "Diggernauth" = apikey)
    (hj0 : env.fault Step.jsonDecode = none)
    (hj : env.jsonDecode r.body = Except.ok b)
    (hb : b.Base64 = "") :
    (base64 env apikey ResponseWriter.fresh r).1.w.status = some 400 ∧
    (base64 env apikey ResponseWriter.fresh r).1.w.body =
      [env.jsonMarshal [("status", "failure"), ("error", "base64 string required")] ++ "\n"] ∧
    (base64 env apikey ResponseWriter.fresh r).1.w.superfluous = 0 ∧
    (base64 env apikey ResponseWriter.fresh r).1.trace = [] ∧
    (base64 env apikey ResponseWriter.fresh r).2 = Exit.returned := by
  simp [base64, handle, finishHandle, errorResponse, httpError, State.init,
    ResponseWriter.fresh, ResponseWriter.WriteHeader, ResponseWriter.Write, hauth, hj0, hj, hb]

/-- Witness for C3: the right key, every other field set, `base64` empty. -/
theorem empty_base64_rejected_witness :
    Header.Get (post "key").header "Diggernauth" = "key" ∧
    (double noFault (Except.ok (fields "" 3)) (Except.ok "hi") none).fault Step.jsonDecode
      = none ∧
    (double noFault (Except.ok (fields "" 3)) (Except.ok "hi") none).jsonDecode (post "key").body
      = Except.ok (fields "" 3) ∧
    (fields "" 3).Base64 = "" ∧
    ((base64 (double noFault (Except.ok (fields "" 3)) (Except.ok "hi") none) "key"
        ResponseWriter.fresh (post "key")).1.w.status = some 400 ∧
      (base64 (double noFault (Except.ok (fields "" 3)) (Except.ok "hi") none) "key"
        ResponseWriter.fresh (post "key")).1.w.body =
        [(double noFault (Except.ok (fields "" 3)) (Except.ok "hi") none).jsonMarshal
          [("status", "failure"), ("error", "base64 string required")] ++ "\n"] ∧
      (base64 (double noFault (Except.ok (fields "" 3)) (Except.ok "hi") none) "key"
        ResponseWriter.fresh (post "key")).1.w.superfluous = 0 ∧
      (base64 (double noFault (Except.ok (fields "" 3)) (Except.ok "hi") none) "key"
        ResponseWriter.fresh (post "key")).1.trace = [] ∧
      (base64 (double noFault (Except.ok (fields "" 3)) (Except.ok "hi") none) "key"
        ResponseWriter.fresh (post "key")).2 = Exit.returned) :=
  ⟨rfl, rfl, rfl, rfl,
    empty_base64_rejected (double noFault (Except.ok (fields "" 3)) (Except.ok "hi") none)
      "key" (post "key") (fields "" 3) rfl rfl rfl rfl⟩

/-- C4 as stated fails, in two ways.  First, `QQ==` followed by a line feed is not
valid RFC 4648 base64 (a line feed is not in the alphabet), yet the decoder skips
the line feed, the handler creates a session and answers 200.  Second, the body
of `stringForPsm` is JSON and its `base64` field `a*==` is not valid base64 (the
base64 decoder would report input byte 1), but `psm` holds a string: `Decode`
returns an `UnmarshalTypeError` and the 400 answer carries that error's text,
not the base64 decoder's. -/
theorem invalid_base64_two_ways :
    (Header.Get (post "key").header "Diggernauth" = "key" ∧
      (fields "QQ==\n" 0).Base64 ≠ "" ∧
      b64.ValidStd (fields "QQ==\n" 0).Base64.data = false ∧
      (base64 (double noFault (Except.ok (fields "QQ==\n" 0)) (Except.ok "hi") none) "key"
          ResponseWriter.fresh (post "key")).1.w.status = some 200 ∧
      Event.newClient ∈ (base64 (double noFault (Except.ok (fields "QQ==\n" 0))
          (Except.ok "hi") none) "key" ResponseWriter.fresh (post "key")).1.trace) ∧
    (Header.Get (postBody "key" stringForPsm).header "Diggernauth" = "key" ∧
      parsedFields ((doubleWith noFault stringForPsmDecoded (Except.ok "hi") none).jsonDecode
        (postBody "key" stringForPsm).body) = some { zeroFields with Base64 := "a*==" } ∧
      b64.ValidStd ("a*==").data = false ∧
      (b64.DecodeString "a*==").2 = some 1 ∧
      (base64 (doubleWith noFault stringForPsmDecoded (Except.ok "hi") none) "key"
          ResponseWriter.fresh (postBody "key" stringForPsm)).1.w.status = some 400 ∧
      (base64 (doubleWith noFault stringForPsmDecoded (Except.ok "hi") none) "key"
          ResponseWriter.fresh (postBody "key" stringForPsm)).1.w.body =
        [(doubleWith noFault stringForPsmDecoded (Except.ok "hi") none).jsonMarshal
          [("status", "failure"), ("error",
            "json: cannot unmarshal string into Go struct field .psm of type gosseract.PageSegMode")]
          ++ "\n"] ∧
      (base64 (doubleWith noFault stringForPsmDecoded (Except.ok "hi") none) "key"
          ResponseWriter.fresh (postBody "key" stringForPsm)).1.w.body ≠
        [(doubleWith noFault stringForPsmDecoded (Except.ok "hi") none).jsonMarshal
          [("status", "failure"), ("error", b64.CorruptInputError 1)] ++ "\n"]) := by
  decide

/-- C4, amended: an authenticated request whose body `Decode` decodes into the struct
without error and whose non-empty `base64` field is not valid standard padded
base64 even after its line feeds and carriage returns are dropped, is rejected
by the base64 decoder with some `CorruptInputError e`, and the handler answers
400 with the failure envelope carrying that error's text, written once, without
any engine call. -/
theorem undecodable_base64_rejected {P : Type} (env : Env P) (apikey : String)
    (r : Request) (b : Body)
    (hauth : Header.Get r.header "Diggernauth" = apikey)
    (hj0 : env.fault Step.jsonDecode = none)
    (hj : env.jsonDecode r.body = Except.ok b)
    (hne : b.Base64 ≠ "")
    (hb0 : env.fault Step.b64Decode = none)
    (hbad : b64.ValidStd (b64.dropNewlines b.Base64.data) = false) :
    ∃ e, (b64.DecodeString b.Base64).2 = some e ∧
      (base64 env apikey ResponseWriter.fresh r).1.w.status = some 400 ∧
      (base64 env apikey ResponseWriter.fresh r).1.w.body =
        [env.jsonMarshal [("status", "failure"), ("error", b64.CorruptInputError e)] ++ "\n"] ∧
      (base64 env apikey ResponseWriter.fresh r).1.w.superfluous = 0 ∧
      (base64 env apikey ResponseWriter.fresh r).1.trace = [] ∧
      (base64 env apikey ResponseWriter.fresh r).2 = Exit.returned := by
  obtain ⟨e, he⟩ := b64.decodeString_rejects b.Base64 hbad
  have hlen := string_length_ne_zero _ hne
  refine ⟨e, he, ?_⟩
  cases hd : b64.DecodeString b.Base64 with
  | mk bs err =>
    rw [hd] at he
    simp only at he
    subst he
    simp [base64, handle, finishHandle, errorResponse, httpError, State.init,
      ResponseWriter.fresh, ResponseWriter.WriteHeader, ResponseWriter.Write, hauth, hj0, hj,
      hlen, hb0, hd]

/-- Witness for C4: `a*==` holds a character outside the alphabet. -/
theorem undecodable_base64_rejected_witness :
    Header.Get (post "key").header "Diggernauth" = "key" ∧
    (double noFault (Except.ok (fields "a*==" 0)) (Except.ok "hi") none).fault Step.jsonDecode
      = none ∧
    (double noFault (Except.ok (fields "a*==" 0)) (Except.ok "hi") none).jsonDecode
      (post "key").body = Except.ok (fields "a*==" 0) ∧
    (fields "a*==" 0).Base64 ≠ "" ∧
    (double noFault (Except.ok (fields "a*==" 0)) (Except.ok "hi") none).fault Step.b64Decode
      = none ∧
    b64.ValidStd (b64.dropNewlines (fields "a*==" 0).Base64.data) = false ∧
    (∃ e, (b64.DecodeString (fields "a*==" 0).Base64).2 = some e ∧
      (base64 (double noFault (Except.ok (fields "a*==" 0)) (Except.ok "hi") none) "key"
        ResponseWriter.fresh (post "key")).1.w.status = some 400 ∧
      (base64 (double noFault (Except.ok (fields "a*==" 0)) (Except.ok "hi") none) "key"
        ResponseWriter.fresh (post "key")).1.w.body =
        [(double noFault (Except.ok (fields "a*==" 0)) (Except.ok "hi") none).jsonMarshal
          [("status", "failure"), ("error", b64.CorruptInputError e)] ++ "\n"] ∧
      (base64 (double noFault (Except.ok (fields "a*==" 0)) (Except.ok "hi") none) "key"
        ResponseWriter.fresh (post "key")).1.w.superfluous = 0 ∧
      (base64 (double noFault (Except.ok (fields "a*==" 0)) (Except.ok "hi") none) "key"
        ResponseWriter.fresh (post "key")).1.trace = [] ∧
      (base64 (double noFault (Except.ok (fields "a*==" 0)) (Except.ok "hi") none) "key"
        ResponseWriter.fresh (post "key")).2 = Exit.returned) :=
  ⟨rfl, rfl, rfl, by decide, rfl, by decide,
    undecodable_base64_rejected
      (double noFault (Except.ok (fields "a*==" 0)) (Except.ok "hi") none) "key" (post "key")
      (fields "a*==" 0) rfl rfl rfl (by decide) rfl (by decide)⟩

/-- C5, evaluated where it fails: the 403 answer to a wrong key goes through
`http.Error`, which resets `Content-Type`; the response is sent with
`Content-Type: text/plain; charset=utf-8` (and `Access-Control-Allow-Origin: *`),
not with `application/json`. -/
theorem failure_content_type_plain :
    Header.Get (post "wrong").header "Diggernauth" ≠ "key" ∧
    (base64 (double noFault (Except.ok (fields "aGk=" 0)) (Except.ok "hi") none) "key"
        ResponseWriter.fresh (post "wrong")).1.w.status = some 403 ∧
    Header.Get (base64 (double noFault (Except.ok (fields "aGk=" 0)) (Except.ok "hi") none)
        "key" ResponseWriter.fresh (post "wrong")).1.w.sentHeader "Content-Type" =
      "text/plain; charset=utf-8" ∧
    Header.Get (base64 (double noFault (Except.ok (fields "aGk=" 0)) (Except.ok "hi") none)
        "key" ResponseWriter.fresh (post "wrong")).1.w.sentHeader
        "Access-Control-Allow-Origin" = "*" := by
  decide

/-- C10, evaluated where it fails: with `psm = 3` and `SetPageSegMode` panicking, the
session has been created but the deferred `Close` is not registered yet; the
handler answers 500 and returns without ever releasing the session. -/
theorem psm_panic_leaks_session :
    Header.Get (post "key").header "Diggernauth" = "key" ∧
    b64.DecodeString (fields "aGk=" 3).Base64 = ([104, 105], none) ∧
    (0 : Int) < (fields "aGk=" 3).PSM ∧
    (base64 (double (faultAt Step.setPageSegMode "boom") (Except.ok (fields "aGk=" 3))
        (Except.ok "hi") none) "key" ResponseWriter.fresh (post "key")).1.trace =
      [Event.newClient, Event.setPageSegMode 3] ∧
    Event.close ∉ (base64 (double (faultAt Step.setPageSegMode "boom")
        (Except.ok (fields "aGk=" 3)) (Except.ok "hi") none) "key" ResponseWriter.fresh
        (post "key")).1.trace ∧
    (base64 (double (faultAt Step.setPageSegMode "boom") (Except.ok (fields "aGk=" 3))
        (Except.ok "hi") none) "key" ResponseWriter.fresh (post "key")).1.w.status = some 500 ∧
    (base64 (double (faultAt Step.setPageSegMode "boom") (Except.ok (fields "aGk=" 3))
        (Except.ok "hi") none) "key" ResponseWriter.fresh (post "key")).2 = Exit.returned := by
  decide

/-- Witness for C6: the engine text ` xhi x` with `trim` set to ` x` gives `hi`. -/
theorem result_trimmed_witness :
    Header.Get (post "key").header "Diggernauth" = "key" ∧
    happy.jsonDecode (post "key").body = Except.ok (fields "aGk=" 3) ∧
    b64.DecodeString (fields "aGk=" 3).Base64 = ([104, 105], none) ∧
    happy.text (engineCalls (fields "aGk=" 3) [104, 105]) = Except.ok " xhi x" ∧
    strings.Trim " xhi x" (fields "aGk=" 3).Trim = "hi" ∧
    ((base64 happy "key" ResponseWriter.fresh (post "key")).1.w.status = some 200 ∧
      (base64 happy "key" ResponseWriter.fresh (post "key")).1.w.body.head? =
        some (happy.jsonMarshal
          [("status", "success"), ("result", strings.Trim " xhi x" (fields "aGk=" 3).Trim)]) ∧
      (∃ p q, (" xhi x" : String).data =
          p ++ (strings.Trim " xhi x" (fields "aGk=" 3).Trim).data ++ q ∧
        (∀ c ∈ p, c ∈ (fields "aGk=" 3).Trim.data) ∧
        (∀ c ∈ q, c ∈ (fields "aGk=" 3).Trim.data) ∧
        (∀ c, (strings.Trim " xhi x" (fields "aGk=" 3).Trim).data.head? = some c →
          c ∉ (fields "aGk=" 3).Trim.data) ∧
        (∀ c, (strings.Trim " xhi x" (fields "aGk=" 3).Trim).data.getLast? = some c →
          c ∉ (fields "aGk=" 3).Trim.data)) ∧
      ((fields "aGk=" 3).Trim = "" →
        strings.Trim " xhi x" (fields "aGk=" 3).Trim = " xhi x")) :=
  ⟨rfl, rfl, by decide, rfl, by decide,
    result_trimmed happy "key" (post "key") (fields "aGk=" 3) [104, 105] " xhi x"
      rfl rfl rfl (by decide) rfl (by decide) rfl (fun _ => rfl) rfl (fun _ => rfl) rfl rfl⟩

/-- Witness for C7: `languages` set to `eng,fra`. -/
theorem languages_configured_witness :
    Header.Get (post "key").header "Diggernauth" = "key" ∧
    happy.jsonDecode (post "key").body = Except.ok (fields "aGk=" 3) ∧
    b64.DecodeString (fields "aGk=" 3).Base64 = ([104, 105], none) ∧
    ((∃ before after, (base64 happy "key" ResponseWriter.fresh (post "key")).1.trace =
          before ++ Event.text (if (fields "aGk=" 3).Languages = "" then ["eng"]
            else strings.Split (fields "aGk=" 3).Languages ',') :: after ∧
        ∀ l, Event.text l ∉ before ++ after) ∧
      (∀ p ∈ strings.Split (fields "aGk=" 3).Languages ',', ',' ∉ p.data) ∧
      strings.Join (strings.Split (fields "aGk=" 3).Languages ',') ',' =
        (fields "aGk=" 3).Languages ∧
      strings.Split "eng,fra" ',' = ["eng", "fra"] ∧
      strings.Split "eng,, fra," ',' = ["eng", "", " fra", ""]) :=
  ⟨rfl, rfl, by decide,
    languages_configured happy "key" (post "key") (fields "aGk=" 3) [104, 105]
      rfl rfl rfl (by decide) rfl (by decide) rfl (fun _ => rfl) rfl (fun _ => rfl)⟩

/-- Witness for C8: `psm = 3`. -/
theorem psm_applied_witness :
    Header.Get (post "key").header "Diggernauth" = "key" ∧
    happy.jsonDecode (post "key").body = Except.ok (fields "aGk=" 3) ∧
    b64.DecodeString (fields "aGk=" 3).Base64 = ([104, 105], none) ∧
    (0 : Int) < (fields "aGk=" 3).PSM ∧
    (((fields "aGk=" 3).PSM ≤ 0 → ∀ m, Event.setPageSegMode m ∉
        (base64 happy "key" ResponseWriter.fresh (post "key")).1.trace) ∧
      (0 < (fields "aGk=" 3).PSM → ∃ rest,
        (base64 happy "key" ResponseWriter.fresh (post "key")).1.trace =
          Event.newClient :: Event.setPageSegMode (fields "aGk=" 3).PSM :: rest ∧
        ∀ m, Event.setPageSegMode m ∉ rest)) :=
  ⟨rfl, rfl, by decide, by decide,
    psm_applied happy "key" (post "key") (fields "aGk=" 3) [104, 105]
      rfl rfl rfl (by decide) rfl (by decide) rfl⟩

/-- Witness for C9: the two bytes of `hi`, whose standard encoding is `aGk=`. -/
theorem decoded_image_roundtrip_witness :
    Header.Get (post "key").header "Diggernauth" = "key" ∧
    happy.jsonDecode (post "key").body = Except.ok (fields "aGk=" 3) ∧
    (fields "aGk=" 3).Base64 = b64.EncodeToString [104, 105] ∧
    (b64.DecodeString (fields "aGk=" 3).Base64 = ([104, 105], none) ∧
      Event.setImageFromBytes [104, 105] ∈
        (base64 happy "key" ResponseWriter.fresh (post "key")).1.trace ∧
      ∀ B', Event.setImageFromBytes B' ∈
        (base64 happy "key" ResponseWriter.fresh (post "key")).1.trace → B' = [104, 105]) :=
  ⟨rfl, rfl, by decide,
    decoded_image_roundtrip happy "key" (post "key") (fields "aGk=" 3) [104, 105]
      rfl rfl rfl (by decide) (by decide) rfl rfl (fun _ => rfl)⟩

end OcrService
